import Mathlib

/-!
Verification of the dependency-inference engine of the Azure resource graph
tool (`src/azure_resources_graph/arg/azure_resource_graph.py`).

The engine's input is a catalog of resource records (dictionaries decoded
from JSON).  We shallowly embed the Python code:

* `JValue` models a JSON/Python value (`None`, `bool`, `int`, `str`, `list`,
  `dict`).  Floating point numbers do not occur in any analysed field.
* A `Resource` record keeps the scalar identity fields of a resource record
  (`id`, `name`, `type`, `kind`) as `Option String` (`none` models the key
  being absent or JSON-`null`; the data model fixes them as strings), and the
  four nested documents as `Option JValue`.
* Fallible Python operations (attribute access on a non-dict, `dict[key]`,
  iteration over a number, adding an unhashable value to a set, …) run in
  `PyM := Except String`, so an uncaught Python exception is an
  `Except.error`.
* The process-global failure log only records messages; it never influences
  the returned dependency sets, so it is not modelled.
* The external `run_az_command` collaborator (used for the one point-to-point
  ACR login-server confirmation) is passed in as a fixed function
  `az : String → Option JValue`; `none` models a call that raised or
  returned nothing.

Python dictionaries are modelled as association lists in insertion order and
sets as duplicate-free lists in insertion order; the dependency maps are
`List (String × List JValue)`.
-/

inductive JValue where
  | null
  | bool (b : Bool)
  | num (n : Int)
  | str (s : String)
  | arr (xs : List JValue)
  | obj (kvs : List (String × JValue))
deriving Repr

def JValue.decEq : (a b : JValue) → Decidable (a = b)
  | .null, .null => isTrue rfl
  | .bool a, .bool b =>
    if h : a = b then isTrue (by rw [h]) else isFalse (by simp [h])
  | .num a, .num b =>
    if h : a = b then isTrue (by rw [h]) else isFalse (by simp [h])
  | .str a, .str b =>
    if h : a = b then isTrue (by rw [h]) else isFalse (by simp [h])
  | .arr xs, .arr ys =>
    match decEqL xs ys with
    | isTrue h => isTrue (by rw [h])
    | isFalse h => isFalse (by simp [h])
  | .obj xs, .obj ys =>
    match decEqO xs ys with
    | isTrue h => isTrue (by rw [h])
    | isFalse h => isFalse (by simp [h])
  | .null, .bool _ | .null, .num _ | .null, .str _ | .null, .arr _ | .null, .obj _
  | .bool _, .null | .bool _, .num _ | .bool _, .str _ | .bool _, .arr _ | .bool _, .obj _
  | .num _, .null | .num _, .bool _ | .num _, .str _ | .num _, .arr _ | .num _, .obj _
  | .str _, .null | .str _, .bool _ | .str _, .num _ | .str _, .arr _ | .str _, .obj _
  | .arr _, .null | .arr _, .bool _ | .arr _, .num _ | .arr _, .str _ | .arr _, .obj _
  | .obj _, .null | .obj _, .bool _ | .obj _, .num _ | .obj _, .str _ | .obj _, .arr _ =>
    isFalse (by intro h; exact JValue.noConfusion h)
where
  decEqL : (xs ys : List JValue) → Decidable (xs = ys)
    | [], [] => isTrue rfl
    | [], _ :: _ => isFalse (by simp)
    | _ :: _, [] => isFalse (by simp)
    | x :: xs, y :: ys =>
      match decEq x y, decEqL xs ys with
      | isTrue h1, isTrue h2 => isTrue (by rw [h1, h2])
      | isFalse h1, _ => isFalse (by simp [h1])
      | _, isFalse h2 => isFalse (by simp [h2])
  decEqO : (xs ys : List (String × JValue)) → Decidable (xs = ys)
    | [], [] => isTrue rfl
    | [], _ :: _ => isFalse (by simp)
    | _ :: _, [] => isFalse (by simp)
    | (k, v) :: xs, (k2, v2) :: ys =>
      match decidable_of_iff (k = k2) Iff.rfl, decEq v v2, decEqO xs ys with
      | isTrue h0, isTrue h1, isTrue h2 => isTrue (by rw [h0, h1, h2])
      | isFalse h0, _, _ => isFalse (by simp [h0])
      | _, isFalse h1, _ => isFalse (by simp [h1])
      | _, _, isFalse h2 => isFalse (by simp [h2])

instance : DecidableEq JValue := JValue.decEq

theorem sizeLtArr {x : JValue} {xs : List JValue} (h : x ∈ xs) :
    sizeOf x < sizeOf (JValue.arr xs) := by
  have := List.sizeOf_lt_of_mem h
  simp only [JValue.arr.sizeOf_spec]
  omega

theorem sizeLtObj {k : String} {v : JValue} {kvs : List (String × JValue)}
    (h : (k, v) ∈ kvs) : sizeOf v < sizeOf (JValue.obj kvs) := by
  have h1 := List.sizeOf_lt_of_mem h
  have h2 : sizeOf v < sizeOf (k, v) := by
    simp only [Prod.mk.sizeOf_spec]
    omega
  simp only [JValue.obj.sizeOf_spec]
  omega

/-- Hexadecimal digit character, lower case, as used by `json.dumps` for
`\uXXXX` escapes. -/
def hexDig (n : Nat) : Char :=
  if n < 10 then Char.ofNat (48 + n) else Char.ofNat (87 + (n % 16))

def uEsc (n : Nat) : String :=
  String.mk ['\\', 'u', hexDig ((n / 4096) % 16), hexDig ((n / 256) % 16),
             hexDig ((n / 16) % 16), hexDig (n % 16)]

/-- Escaping of one character exactly as CPython's `json.dumps` does with its
default `ensure_ascii=True`. -/
def escChar (c : Char) : String :=
  if c = '"' then "\\\""
  else if c = '\\' then "\\\\"
  else if c = '\n' then "\\n"
  else if c = '\r' then "\\r"
  else if c = '\t' then "\\t"
  else if c.toNat = 8 then "\\b"
  else if c.toNat = 12 then "\\f"
  else if c.toNat < 32 then uEsc c.toNat
  else if c.toNat < 127 then String.mk [c]
  else if c.toNat < 65536 then uEsc c.toNat
  else
    uEsc (55296 + (c.toNat - 65536) / 1024) ++ uEsc (56320 + (c.toNat - 65536) % 1024)

def escStr (s : String) : String :=
  "\"" ++ String.join (s.data.map escChar) ++ "\""

mutual
/-- Embedding of `json.dumps` with its default separators
(`", "` between items, `": "` after keys) and key order preserved
(CPython keeps dict insertion order and `sort_keys` defaults to `False`). -/
def dumps : JValue → String
  | .null => "null"
  | .bool true => "true"
  | .bool false => "false"
  | .num n => toString n
  | .str s => escStr s
  | .arr xs => "[" ++ String.intercalate ", " (dumpsL xs) ++ "]"
  | .obj kvs => "\x7b" ++ String.intercalate ", " (dumpsO kvs) ++ "\x7d"

def dumpsL : List JValue → List String
  | [] => []
  | x :: xs => dumps x :: dumpsL xs

def dumpsO : List (String × JValue) → List String
  | [] => []
  | (k, v) :: kvs => (escStr k ++ ": " ++ dumps v) :: dumpsO kvs
end

/-- Truthiness of a Python value, as used by `if value:` tests. -/
def JValue.truthy : JValue → Bool
  | .null => false
  | .bool b => b
  | .num n => n != 0
  | .str s => !s.isEmpty
  | .arr xs => !xs.isEmpty
  | .obj kvs => !kvs.isEmpty

/-- Truthiness of an optional string (Python: `None` and `""` are falsy). -/
def optTruthy : Option String → Bool
  | some s => !s.isEmpty
  | none => false

/-- Monad of Python computations: an uncaught exception is `Except.error`
with the exception kind as the message. -/
abbrev PyM := Except String

/-- Lookup in an association list modelling a dict (keys are unique in every
dict produced by the program, so first match suffices). -/
def jFind (kvs : List (String × JValue)) (k : String) : Option JValue :=
  match kvs.find? (fun p => p.1 == k) with
  | some p => some p.2
  | none => none

/-- Python `value.get(key, default)`: raises `AttributeError` unless `value`
is a dict. -/
def jGet (v : JValue) (k : String) (d : JValue) : PyM JValue :=
  match v with
  | .obj kvs => pure ((jFind kvs k).getD d)
  | _ => Except.error "AttributeError"

/-- Python `value.items()`: raises unless `value` is a dict. -/
def jItems : JValue → PyM (List (String × JValue))
  | .obj kvs => pure kvs
  | _ => Except.error "AttributeError"

/-- Python `value[key]` with a string key. -/
def jIndexS (v : JValue) (k : String) : PyM JValue :=
  match v with
  | .obj kvs =>
    match jFind kvs k with
    | some x => pure x
    | none => Except.error "KeyError"
  | _ => Except.error "TypeError"

/-- Python `for x in value`: lists yield elements, dicts yield keys, strings
yield one-character strings, everything else raises `TypeError`. -/
def jIter : JValue → PyM (List JValue)
  | .arr xs => pure xs
  | .obj kvs => pure (kvs.map (fun p => JValue.str p.1))
  | .str s => pure (s.data.map (fun c => JValue.str (String.mk [c])))
  | _ => Except.error "TypeError"

def pfxMatch : List Char → List Char → Bool
  | [], _ => true
  | _ :: _, [] => false
  | a :: as, b :: bs => a == b && pfxMatch as bs

def hasSubAux (n : List Char) : List Char → Bool
  | [] => n.isEmpty
  | hay@(_ :: t) => pfxMatch n hay || hasSubAux n t

/-- Python substring test `needle in hay` for strings. -/
def hasSub (needle hay : String) : Bool := hasSubAux needle.data hay.data

/-- Python `needle in value` for a string needle: substring for strings, key
membership for dicts, element membership for lists, `TypeError` otherwise. -/
def jContains (needle : String) (v : JValue) : PyM Bool :=
  match v with
  | .str s => pure (hasSub needle s)
  | .obj kvs => pure (kvs.any (fun p => p.1 == needle))
  | .arr xs => pure (xs.contains (JValue.str needle))
  | _ => Except.error "TypeError"

/-- Python `s.lower()` (ASCII, which covers every analysed constant). -/
def pyLower (s : String) : String := String.mk (s.data.map Char.toLower)

/-- Python `s.upper()` (ASCII). -/
def pyUpper (s : String) : String := String.mk (s.data.map Char.toUpper)

/-- Python `s.replace('-', '')`. -/
def noDash (s : String) : String :=
  String.mk (s.data.filter (fun c => decide (c ≠ '-')))

/-- Comparison `resource.get('name') == lb_name` between an optional string
field and an arbitrary JSON value (Python `None == None` is `True`). -/
def optStrEqJ : Option String → JValue → Bool
  | none, .null => true
  | some s, .str t => s == t
  | _, _ => false

/-- Resource record: scalar identity fields plus the nested documents used by
the inference engine.  `none` models an absent key (for the scalar fields
also a JSON `null` value, which the engine treats the same way everywhere it
reads them). -/
structure Resource where
  id : Option String
  name : Option String
  type : Option String
  kind : Option String
  properties : Option JValue
  environmentVariables : Option JValue
  specificConfiguration : Option JValue
  networkInfo : Option JValue
deriving DecidableEq, Repr

def tyIn (r : Resource) (tys : List String) : Bool :=
  match r.type with
  | some t => tys.contains t
  | none => false

/-- One of the two dependency dictionaries: resource id → set of targets,
the set kept as a duplicate-free list in insertion order.  Python sets only
hold hashable values, dependency targets are raw JSON scalars. -/
abbrev DepMap := List (String × List JValue)

def lookupD (m : DepMap) (k : String) : List JValue :=
  match m.find? (fun p => p.1 == k) with
  | some p => p.2
  | none => []

def hasKey (m : DepMap) (k : String) : Bool := m.any (fun p => p.1 == k)

/-- Python `d[k] = v` (overwrite in place, append when new). -/
def setEntry (m : DepMap) (k : String) (v : List JValue) : DepMap :=
  if hasKey m k then m.map (fun p => if p.1 == k then (p.1, v) else p)
  else m ++ [(k, v)]

/-- Python values that may be added to a set. -/
def isHashable : JValue → Bool
  | .arr _ => false
  | .obj _ => false
  | _ => true

def setAdd (s : List JValue) (v : JValue) : List JValue :=
  if s.contains v then s else s ++ [v]

/-- Python `m[k].add(v)`: `KeyError` when the key is missing, `TypeError`
when the value is unhashable. -/
def addEntry (m : DepMap) (k : String) (v : JValue) : PyM DepMap :=
  if hasKey m k then
    if isHashable v then
      pure (m.map (fun p => if p.1 == k then (p.1, setAdd p.2 v) else p))
    else Except.error "TypeError"
  else Except.error "KeyError"

/-- The pair of dependency dictionaries built by the engine. -/
structure Deps where
  confirmed : DepMap
  potential : DepMap
deriving DecidableEq, Repr

def addConf (m : Deps) (k : String) (v : JValue) : PyM Deps := do
  let c ← addEntry m.confirmed k v
  pure ⟨c, m.potential⟩

def addPot (m : Deps) (k : String) (v : JValue) : PyM Deps := do
  let p ← addEntry m.potential k v
  pure ⟨m.confirmed, p⟩

/-- `potential_dependencies[resource_id].add(potential_dep['id'])`: the
subscript raises `KeyError` when the candidate has no `id`. -/
def addPotRes (m : Deps) (k : String) (dep : Resource) : PyM Deps :=
  match dep.id with
  | some s => addPot m k (JValue.str s)
  | none => Except.error "KeyError"

instance : DecidableEq (PyM Deps) := fun a b =>
  match a, b with
  | Except.ok x, Except.ok y =>
      if h : x = y then isTrue (by rw [h]) else isFalse (by simp [h])
  | Except.error e1, Except.error e2 =>
      if h : e1 = e2 then isTrue (by rw [h]) else isFalse (by simp [h])
  | Except.ok _, Except.error _ => isFalse (by simp)
  | Except.error _, Except.ok _ => isFalse (by simp)

/-- Python `if cond: <mutating block>` in statement position: run the block
when the condition holds, otherwise keep the maps unchanged. -/
def condStep (c : Bool) (act : Deps → PyM Deps) (m : Deps) : PyM Deps :=
  if c then act m else pure m

/-- Python `try: <block> except Exception: <log>` around a block whose only
map mutation is its final set-add: on any error the maps are kept. -/
def pyTry (attempt : PyM Deps) (fallback : Deps) : Deps :=
  match attempt with
  | Except.ok m2 => m2
  | Except.error _ => fallback

/-- Combined blob serialized for the global ID-containment scan
(`azure_resource_graph.py:1202`-`1208`): the four nested documents with the
defaults the code reads them with (`resource.get(key, {})`). -/
def jBlob (r : Resource) : JValue :=
  JValue.obj [
    ("properties", r.properties.getD (JValue.obj [])),
    ("environmentVariables", r.environmentVariables.getD (JValue.obj [])),
    ("specificConfiguration", r.specificConfiguration.getD (JValue.obj [])),
    ("networkInfo", r.networkInfo.getD (JValue.obj []))]

/-- Phase 1, global ID containment (`azure_resource_graph.py:1210`-`1213`):
every other resource whose truthy `id` occurs verbatim in the serialized
blob becomes a confirmed dependency. -/
def idContainmentScan (resources : List Resource) (resourceId : String)
    (allResourceData : String) (m : Deps) : PyM Deps :=
  resources.foldlM (fun m dep =>
    match dep.id with
    | some depId =>
        if !depId.isEmpty && depId != resourceId && hasSub depId allResourceData then
          addConf m resourceId (JValue.str depId)
        else pure m
    | none => pure m) m

/-- Inner candidate loop of the app-settings and connection-strings scans
(`azure_resource_graph.py:1222`-`1230` and `1237`-`1245`): names longer than
3 characters match directly or with hyphens stripped from both sides. -/
def nameMatchScan (resources : List Resource) (resourceId : String)
    (value : String) (m : Deps) : PyM Deps :=
  resources.foldlM (fun m dep =>
    let depName := dep.name.getD ""
    if !depName.isEmpty && depName.length > 3 then
      if hasSub depName value then addPotRes m resourceId dep
      else if hasSub (noDash depName) (noDash value) then addPotRes m resourceId dep
      else pure m
    else pure m) m

/-- Shared shape of the `appSettings` and `connectionStrings` scans
(`azure_resource_graph.py:1216`-`1245`): fetch the sub-dict, iterate its
items, scan every string value. -/
def scanEnvMap (resources : List Resource) (resourceId : String)
    (envVars : JValue) (key : String) (m : Deps) : PyM Deps := do
  let settings ← jGet envVars key (JValue.obj [])
  let items ← jItems settings
  items.foldlM (fun m kv =>
    match kv.2 with
    | JValue.str s => nameMatchScan resources resourceId s m
    | _ => pure m) m

/-- Inner candidate loop of the `networkInfo` scan
(`azure_resource_graph.py:1253`-`1256`): any truthy name that occurs in the
value matches (no length minimum, no hyphen stripping). -/
def netValueScan (resources : List Resource) (resourceId : String)
    (value : String) (m : Deps) : PyM Deps :=
  resources.foldlM (fun m dep =>
    let depName := dep.name.getD ""
    if !depName.isEmpty && hasSub depName value then addPotRes m resourceId dep
    else pure m) m

/-- `networkInfo` scan (`azure_resource_graph.py:1248`-`1256`): string values
are scanned directly, list values are scanned through `json.dumps`. -/
def scanNetworkInfo (resources : List Resource) (resourceId : String)
    (networkInfo : JValue) (m : Deps) : PyM Deps := do
  let items ← jItems networkInfo
  items.foldlM (fun m kv =>
    match kv.2 with
    | JValue.str s => netValueScan resources resourceId s m
    | JValue.arr xs => netValueScan resources resourceId (dumps (JValue.arr xs)) m
    | _ => pure m) m

/-- Shared shape of the many "resources of these types whose truthy name
occurs in this string value" loops (storage, insights, key-vault, service
bus, … rules).  `conf` selects the confirmed or the potential map; the
`dep['id']` subscript raises when the matched candidate has no `id`. -/
def addNameInValue (resources : List Resource) (resourceId : String)
    (tys : List String) (value : String) (conf : Bool) (m : Deps) : PyM Deps :=
  resources.foldlM (fun m dep =>
    if tyIn dep tys then
      match dep.name with
      | some n =>
          if !n.isEmpty && hasSub n value then
            match dep.id with
            | some s =>
                if conf then addConf m resourceId (JValue.str s)
                else addPot m resourceId (JValue.str s)
            | none => Except.error "KeyError"
          else pure m
      | none => pure m
    else pure m) m

/-- Shared shape of the "every resource of these types becomes a potential
dependency" loops (secret-name heuristics, APIM→insights, implicit
type-pair rules). -/
def addAllOfType (resources : List Resource) (resourceId : String)
    (tys : List String) (m : Deps) : PyM Deps :=
  resources.foldlM (fun m dep =>
    if tyIn dep tys then
      match dep.id with
      | some s => addPot m resourceId (JValue.str s)
      | none => Except.error "KeyError"
    else pure m) m

/-- Shared shape of the "find the parent virtual network whose `id` is
contained in this subnet reference" loops (function-app vnet integration,
VMSS subnets, storage network rules). -/
def addVnetParents (resources : List Resource) (resourceId : String)
    (subnetId : JValue) (m : Deps) : PyM Deps :=
  resources.foldlM (fun m dep =>
    if dep.type == some "microsoft.network/virtualnetworks" then
      match dep.id with
      | some vid =>
          if !vid.isEmpty then do
            let b ← jContains vid subnetId
            if b then addConf m resourceId (JValue.str vid) else pure m
          else pure m
      | none => pure m
    else pure m) m

/-- Point-to-point ACR login-server confirmation
(`azure_resource_graph.py:1280`-`1294`): the whole block sits in a
`try`/`except`, so any failure (including the external call raising, the
result having an unexpected shape, or the candidate having no `id`) is
swallowed and simply contributes no edge. -/
def acrQueryCmd (subscriptionId : String) (acr : Resource) : String :=
  "az graph query -q \"Resources | where id == '" ++
    (match acr.id with | some s => s | none => "None") ++
    "' | project properties.loginServer\" --subscription " ++ subscriptionId

def acrAttempt (az : String → Option JValue) (subscriptionId : String)
    (m : Deps) (resourceId : String) (acr : Resource) (server : JValue) : PyM Deps :=
  match az (acrQueryCmd subscriptionId acr) with
  | some res =>
      match res with
      | JValue.obj _ => do
          let dataV ← jGet res "data" JValue.null
          if dataV.truthy then
            match dataV with
            | JValue.arr (d0 :: _) =>
                match d0 with
                | JValue.obj _ => do
                    let ls ← jGet d0 "properties.loginServer" JValue.null
                    if ls = server then
                      match acr.id with
                      | some s => addConf m resourceId (JValue.str s)
                      | none => Except.error "KeyError"
                    else pure m
                | _ => pure m
            | JValue.arr [] => pure m
            | JValue.obj _ => Except.error "KeyError"
            | JValue.str _ => pure m
            | _ => Except.error "TypeError"
          else pure m
      | _ => pure m
  | none => pure m

def acrLoginCheck (az : String → Option JValue) (subscriptionId : String)
    (m : Deps) (resourceId : String) (acr : Resource) (server : JValue) : Deps :=
  pyTry (acrAttempt az subscriptionId m resourceId acr server) m

/-- Container-app secret-name heuristics (`azure_resource_graph.py:1301`-`1317`). -/
def caSecretRule (resources : List Resource) (resourceId : String)
    (secretName : String) (m : Deps) : PyM Deps :=
  let lower := pyLower secretName
  if hasSub "keyvault" lower || hasSub "kv" lower then
    addAllOfType resources resourceId ["microsoft.keyvault/vaults"] m
  else if hasSub "storage" lower then
    addAllOfType resources resourceId ["microsoft.storage/storageaccounts"] m
  else if hasSub "database" lower || hasSub "db" lower then
    addAllOfType resources resourceId
      ["microsoft.sql/servers", "microsoft.documentdb/databaseaccounts",
       "microsoft.dbforpostgresql/flexibleservers"] m
  else pure m

/-- Container-app env `secretRef` heuristics (`azure_resource_graph.py:1332`-`1344`). -/
def caSecretRefRule (resources : List Resource) (resourceId : String)
    (secretRef : String) (m : Deps) : PyM Deps :=
  let lower := pyLower secretRef
  if hasSub "appinsights" lower then
    addAllOfType resources resourceId ["microsoft.insights/components"] m
  else if hasSub "webpubsub" lower || hasSub "signalr" lower then
    addAllOfType resources resourceId
      ["microsoft.signalrservice/signalr", "microsoft.signalrservice/webpubsub"] m
  else pure m

/-- Registry and secret rules under `properties.configuration` of a
container app (`azure_resource_graph.py:1266`-`1317`). -/
def caConfigRules (az : String → Option JValue) (subscriptionId : String)
    (resources : List Resource) (resourceId : String) (config : JValue)
    (m : Deps) : PyM Deps :=
  match config with
  | JValue.obj _ => do
      let registriesV ← jGet config "registries" (JValue.arr [])
      let registries := match registriesV with | JValue.arr xs => xs | _ => []
      let m ← registries.foldlM (fun m reg =>
        match reg with
        | JValue.obj _ => do
            let server ← jGet reg "server" (JValue.str "")
            resources.foldlM (fun m acr =>
              if acr.type == some "microsoft.containerregistry/registries" then
                pure (acrLoginCheck az subscriptionId m resourceId acr server)
              else pure m) m
        | _ => pure m) m
      let secretsV ← jGet config "secrets" (JValue.arr [])
      let secrets := match secretsV with | JValue.arr xs => xs | _ => []
      secrets.foldlM (fun m secret =>
        match secret with
        | JValue.obj _ => do
            let sn ← jGet secret "name" (JValue.str "")
            match sn with
            | JValue.str s => caSecretRule resources resourceId s m
            | _ => Except.error "AttributeError"
        | _ => pure m) m
  | _ => pure m

/-- Env-var `secretRef` walk under `properties.template` of a container app
(`azure_resource_graph.py:1320`-`1344`). -/
def caTemplateRules (resources : List Resource) (resourceId : String)
    (template : JValue) (m : Deps) : PyM Deps :=
  match template with
  | JValue.obj _ => do
      let containersV ← jGet template "containers" (JValue.arr [])
      let containers := match containersV with | JValue.arr xs => xs | _ => []
      containers.foldlM (fun m container =>
        match container with
        | JValue.obj ckvs =>
            if ckvs.any (fun p => p.1 == "env") then do
              let envListV ← jGet container "env" (JValue.arr [])
              let envList := match envListV with | JValue.arr xs => xs | _ => []
              envList.foldlM (fun m envVar =>
                match envVar with
                | JValue.obj ekvs =>
                    if ekvs.any (fun p => p.1 == "secretRef") then do
                      let sr ← jIndexS envVar "secretRef"
                      match sr with
                      | JValue.str s => caSecretRefRule resources resourceId s m
                      | _ => Except.error "AttributeError"
                    else pure m
                | _ => pure m) m
            else pure m
        | _ => pure m) m
  | _ => pure m

/-- Type rule for `microsoft.app/containerapps`
(`azure_resource_graph.py:1259`-`1344`). -/
def ruleContainerApps (az : String → Option JValue) (subscriptionId : String)
    (resources : List Resource) (resourceId : String) (properties : JValue)
    (m : Deps) : PyM Deps := do
  let mei ← jGet properties "managedEnvironmentId" JValue.null
  let m ← condStep mei.truthy (fun m => addConf m resourceId mei) m
  let config ← jGet properties "configuration" JValue.null
  let m ← caConfigRules az subscriptionId resources resourceId config m
  let template ← jGet properties "template" JValue.null
  caTemplateRules resources resourceId template m

def storage_conn_settings : List String :=
  ["AzureWebJobsStorage", "WEBSITE_CONTENTAZUREFILECONNECTIONSTRING",
   "AzureWebJobsDashboard", "FUNCTIONS_EXTENSION_VERSION"]

/-- Per-setting rules of the function-app branch
(`azure_resource_graph.py:1366`-`1423`). -/
def funcAppSettingRules (resources : List Resource) (resourceId : String)
    (settingName value : String) (m : Deps) : PyM Deps := do
  let m ← condStep (storage_conn_settings.contains settingName &&
      (hasSub "blob.core.windows.net" value || hasSub "file.core.windows.net" value))
    (addNameInValue resources resourceId ["microsoft.storage/storageaccounts"] value true) m
  let m ← condStep (hasSub "APPLICATIONINSIGHTS" (pyUpper settingName))
    (addNameInValue resources resourceId ["microsoft.insights/components"] value true) m
  let m ← condStep (hasSub "@Microsoft.KeyVault" value || hasSub "vault.azure.net" value)
    (addNameInValue resources resourceId ["microsoft.keyvault/vaults"] value true) m
  let m ← condStep (hasSub "servicebus.windows.net" value)
    (addNameInValue resources resourceId ["microsoft.servicebus/namespaces"] value false) m
  let m ← condStep (hasSub "servicebus.windows.net" value && hasSub "EntityPath=" value)
    (addNameInValue resources resourceId ["microsoft.eventhub/namespaces"] value false) m
  let m ← condStep (hasSub "cosmos.azure.com" value || hasSub "documents.azure.com" value)
    (addNameInValue resources resourceId ["microsoft.documentdb/databaseaccounts"] value false) m
  let m ← condStep (hasSub "database.windows.net" value || hasSub "sql.azuresynapse.net" value)
    (addNameInValue resources resourceId
      ["microsoft.sql/servers", "microsoft.sql/servers/databases"] value false) m
  condStep (hasSub "redis.cache.windows.net" value)
    (addNameInValue resources resourceId ["microsoft.cache/redis"] value false) m

/-- Function-app VNET-integration block (`azure_resource_graph.py:1426`-`1440`). -/
def fnVnetIntegration (resources : List Resource) (resourceId : String)
    (networkInfo : JValue) (m : Deps) : PyM Deps := do
  let b ← jContains "vnetIntegration" networkInfo
  if b then do
    let vnetIntegrations ← jGet networkInfo "vnetIntegration" (JValue.arr [])
    let items ← jIter vnetIntegrations
    items.foldlM (fun m vi =>
      match vi with
      | JValue.obj _ => do
          let vnetResourceId ← jGet vi "vnetResourceId" JValue.null
          let subnetResourceId ← jGet vi "subnetResourceId" JValue.null
          let m ← condStep vnetResourceId.truthy
            (fun m => addConf m resourceId vnetResourceId) m
          condStep subnetResourceId.truthy
            (addVnetParents resources resourceId subnetResourceId) m
      | _ => pure m) m
  else pure m

/-- Function-app private-endpoint block (`azure_resource_graph.py:1443`-`1449`). -/
def fnPrivateEndpoints (resourceId : String) (networkInfo : JValue)
    (m : Deps) : PyM Deps := do
  let b ← jContains "privateEndpoints" networkInfo
  if b then do
    let pes ← jGet networkInfo "privateEndpoints" (JValue.arr [])
    let items ← jIter pes
    items.foldlM (fun m pe =>
      match pe with
      | JValue.obj _ => do
          let peInfo ← jGet pe "privateEndpoint" JValue.null
          match peInfo with
          | JValue.obj pkvs =>
              if peInfo.truthy && pkvs.any (fun p => p.1 == "id") then do
                let pid ← jIndexS peInfo "id"
                addConf m resourceId pid
              else pure m
          | _ => pure m
      | _ => pure m) m
  else pure m

/-- Function-app comprehensive-settings block
(`azure_resource_graph.py:1358`-`1423`). -/
def fnSettingsBlock (resources : List Resource) (resourceId : String)
    (envVars : JValue) (m : Deps) : PyM Deps :=
  if envVars.truthy then do
    let b ← jContains "functionAppSettings" envVars
    if b then do
      let funcSettings ← jGet envVars "functionAppSettings" (JValue.obj [])
      let items ← jItems funcSettings
      items.foldlM (fun m kv =>
        match kv.2 with
        | JValue.str s => funcAppSettingRules resources resourceId kv.1 s m
        | _ => pure m) m
    else pure m
  else pure m

/-- `microsoft.web/sites` with a function-app kind
(`azure_resource_graph.py:1350`-`1449`). -/
def ruleWebSitesFunc (resources : List Resource) (resourceId : String)
    (properties envVars networkInfo : JValue) (m : Deps) : PyM Deps := do
  let serverFarmId ← jGet properties "serverFarmId" JValue.null
  let m ← condStep serverFarmId.truthy (fun m => addConf m resourceId serverFarmId) m
  let m ← fnSettingsBlock resources resourceId envVars m
  let m ← condStep networkInfo.truthy (fnVnetIntegration resources resourceId networkInfo) m
  condStep networkInfo.truthy (fnPrivateEndpoints resourceId networkInfo) m

/-- Per-connection-string rules of the regular web-app branch
(`azure_resource_graph.py:1471`-`1530`). -/
def webConnStringRules (resources : List Resource) (resourceId : String)
    (value : String) (m : Deps) : PyM Deps := do
  let m ← condStep (hasSub "database.windows.net" value || hasSub "sql.azuresynapse.net" value)
    (addNameInValue resources resourceId
      ["microsoft.sql/servers", "microsoft.sql/servers/databases"] value false) m
  let m ← condStep (hasSub "blob.core.windows.net" value || hasSub "table.core.windows.net" value ||
      hasSub "queue.core.windows.net" value || hasSub "file.core.windows.net" value)
    (addNameInValue resources resourceId ["microsoft.storage/storageaccounts"] value false) m
  let m ← condStep (hasSub "cosmos.azure.com" value || hasSub "documents.azure.com" value)
    (addNameInValue resources resourceId ["microsoft.documentdb/databaseaccounts"] value false) m
  let m ← condStep (hasSub "postgres.database.azure.com" value)
    (addNameInValue resources resourceId
      ["microsoft.dbforpostgresql/servers", "microsoft.dbforpostgresql/flexibleservers"]
      value false) m
  let m ← condStep (hasSub "mysql.database.azure.com" value)
    (addNameInValue resources resourceId
      ["microsoft.dbformysql/servers", "microsoft.dbformysql/flexibleservers"] value false) m
  let m ← condStep (hasSub "servicebus.windows.net" value)
    (addNameInValue resources resourceId ["microsoft.servicebus/namespaces"] value false) m
  let m ← condStep (hasSub "servicebus.windows.net" value && hasSub "EntityPath=" value)
    (addNameInValue resources resourceId ["microsoft.eventhub/namespaces"] value false) m
  condStep (hasSub "redis.cache.windows.net" value)
    (addNameInValue resources resourceId ["microsoft.cache/redis"] value false) m

/-- Key-vault / service-bus / SignalR app-setting rules of the regular
web-app branch (`azure_resource_graph.py:1535`-`1557`). -/
def webKvSettingRules (resources : List Resource) (resourceId : String)
    (value : String) (m : Deps) : PyM Deps := do
  let m ← condStep (hasSub "@Microsoft.KeyVault" value || hasSub "vault.azure.net" value)
    (addNameInValue resources resourceId ["microsoft.keyvault/vaults"] value false) m
  let m ← condStep (hasSub "servicebus.windows.net" value)
    (addNameInValue resources resourceId ["microsoft.servicebus/namespaces"] value false) m
  condStep (hasSub "webpubsub.azure.com" value || hasSub "service.signalr.net" value)
    (addNameInValue resources resourceId
      ["microsoft.signalrservice/signalr", "microsoft.signalrservice/webpubsub"] value false) m

/-- Confirmed App-Insights edge from `properties.siteConfig.appSettings`
(`azure_resource_graph.py:1560`-`1569`). -/
def siteConfigInsights (resources : List Resource) (resourceId : String)
    (properties : JValue) (m : Deps) : PyM Deps := do
  if properties.truthy then do
    let b ← jContains "siteConfig" properties
    if b then do
      let sc0 ← jGet properties "siteConfig" JValue.null
      if sc0 ≠ JValue.null then do
        let siteConfig ← jGet properties "siteConfig" (JValue.obj [])
        let appSettings ← jGet siteConfig "appSettings" (JValue.arr [])
        match appSettings with
        | JValue.arr xs =>
            if !xs.isEmpty then
              xs.foldlM (fun m setting =>
                match setting with
                | JValue.obj skvs =>
                    if jFind skvs "name" == some (JValue.str "APPLICATIONINSIGHTS_CONNECTION_STRING")
                        && skvs.any (fun p => p.1 == "value") then do
                      let connString ← jIndexS setting "value"
                      resources.foldlM (fun m ins =>
                        if ins.type == some "microsoft.insights/components" then
                          match ins.name with
                          | some n =>
                              if !n.isEmpty then do
                                let b2 ← jContains n connString
                                if b2 then
                                  match ins.id with
                                  | some s => addConf m resourceId (JValue.str s)
                                  | none => Except.error "KeyError"
                                else pure m
                              else pure m
                          | none => pure m
                        else pure m) m
                    else pure m
                | _ => pure m) m
            else pure m
        | _ => pure m
      else pure m
    else pure m
  else pure m

/-- App-Insights app-setting scan and connection-string rules of the regular
web-app branch (`azure_resource_graph.py:1459`-`1530`). -/
def webEnvBlock (resources : List Resource) (resourceId : String)
    (envVars : JValue) (m : Deps) : PyM Deps :=
  if envVars.truthy then do
    let appSettings ← jGet envVars "appSettings" (JValue.obj [])
    let items ← jItems appSettings
    let m ← items.foldlM (fun m kv =>
      match kv.2 with
      | JValue.str s =>
          if hasSub "APPLICATIONINSIGHTS" (pyUpper kv.1) then
            addNameInValue resources resourceId ["microsoft.insights/components"] s false m
          else pure m
      | _ => pure m) m
    let connStrings ← jGet envVars "connectionStrings" (JValue.obj [])
    let citems ← jItems connStrings
    citems.foldlM (fun m kv =>
      match kv.2 with
      | JValue.str s => webConnStringRules resources resourceId s m
      | _ => pure m) m
  else pure m

/-- Second app-settings pass of the regular web-app branch
(`azure_resource_graph.py:1533`-`1557`). -/
def webKvBlock (resources : List Resource) (resourceId : String)
    (envVars : JValue) (m : Deps) : PyM Deps :=
  if envVars.truthy then do
    let appSettings ← jGet envVars "appSettings" (JValue.obj [])
    let items ← jItems appSettings
    items.foldlM (fun m kv =>
      match kv.2 with
      | JValue.str s => webKvSettingRules resources resourceId s m
      | _ => pure m) m
  else pure m

/-- `microsoft.web/sites` without a function-app kind
(`azure_resource_graph.py:1451`-`1569`). -/
def ruleWebSitesRegular (resources : List Resource) (resourceId : String)
    (properties envVars : JValue) (m : Deps) : PyM Deps := do
  let serverFarmId ← jGet properties "serverFarmId" JValue.null
  let m ← condStep serverFarmId.truthy (fun m => addConf m resourceId serverFarmId) m
  let m ← webEnvBlock resources resourceId envVars m
  let m ← webKvBlock resources resourceId envVars m
  siteConfigInsights resources resourceId properties m

/-- `microsoft.insights/components` rule (`azure_resource_graph.py:1571`-`1578`). -/
def ruleInsights (resources : List Resource) (resourceId : String)
    (specificConfig : JValue) (m : Deps) : PyM Deps :=
  if specificConfig.truthy then
    addNameInValue resources resourceId ["microsoft.storage/storageaccounts"]
      (dumps specificConfig) false m
  else pure m

/-- `microsoft.apimanagement/service` rule (`azure_resource_graph.py:1580`-`1594`). -/
def ruleApim (resources : List Resource) (resourceId : String)
    (specificConfig : JValue) (m : Deps) : PyM Deps := do
  let m ← addAllOfType resources resourceId ["microsoft.insights/components"] m
  if specificConfig.truthy then
    addNameInValue resources resourceId
      ["microsoft.web/sites", "microsoft.storage/storageaccounts", "microsoft.keyvault/vaults"]
      (dumps specificConfig) false m
  else pure m

/-- `microsoft.keyvault/vaults` rule (`azure_resource_graph.py:1596`-`1607`):
reads `accessPolicies` (which can raise on a malformed config) but adds
nothing. -/
def ruleKeyVault (specificConfig : JValue) (m : Deps) : PyM Deps :=
  if specificConfig.truthy then do
    let _ ← jGet specificConfig "accessPolicies" (JValue.arr [])
    pure m
  else pure m

/-- `microsoft.compute/virtualmachines` rule
(`azure_resource_graph.py:1609`-`1627`). -/
def ruleVM (resources : List Resource) (resourceId : String)
    (properties specificConfig : JValue) (m : Deps) : PyM Deps := do
  let m ← condStep specificConfig.truthy
    (addNameInValue resources resourceId ["microsoft.storage/storageaccounts"]
      (dumps specificConfig) false) m
  if properties.truthy then do
    let b ← jContains "networkProfile" properties
    if b then do
      let np ← jGet properties "networkProfile" (JValue.obj [])
      let nicsV ← jGet np "networkInterfaces" (JValue.arr [])
      let nics := match nicsV with | JValue.arr xs => xs | _ => []
      nics.foldlM (fun m nic =>
        match nic with
        | JValue.obj nkvs =>
            if nkvs.any (fun p => p.1 == "id") then do
              let nid ← jIndexS nic "id"
              addConf m resourceId nid
            else pure m
        | _ => pure m) m
    else pure m
  else pure m

/-- Truncation of a backend-pool or NAT-pool path to its load-balancer
segment and the confirmed edge from it (`azure_resource_graph.py:1675`-`1698`). -/
def lbPoolAdd (resourceId : String) (pool : JValue) (m : Deps) : PyM Deps :=
  match pool with
  | JValue.obj pkvs =>
      if pkvs.any (fun p => p.1 == "id") then do
        let pidV ← jIndexS pool "id"
        match pidV with
        | JValue.str pid =>
            let parts := pid.splitOn "/"
            if parts.length ≥ 9 then
              addConf m resourceId (JValue.str (String.intercalate "/" (parts.take 9)))
            else pure m
        | _ => Except.error "AttributeError"
      else pure m
  | _ => pure m

/-- Subnet-to-parent-VNet step of a VMSS `ipConfiguration`
(`azure_resource_graph.py:1660`-`1667`). -/
def vmssSubnetStep (resources : List Resource) (resourceId : String)
    (subnet : JValue) (m : Deps) : PyM Deps :=
  match subnet with
  | JValue.obj skvs =>
      if subnet.truthy && skvs.any (fun p => p.1 == "id") then do
        let sid ← jIndexS subnet "id"
        addVnetParents resources resourceId sid m
      else pure m
  | _ => pure m

/-- One VMSS `ipConfiguration` (`azure_resource_graph.py:1657`-`1698`). -/
def vmssIpConfig (resources : List Resource) (resourceId : String)
    (ipConfig : JValue) (m : Deps) : PyM Deps :=
  match ipConfig with
  | JValue.obj _ => do
      let subnet ← jGet ipConfig "subnet" JValue.null
      let m ← vmssSubnetStep resources resourceId subnet m
      let poolsV ← jGet ipConfig "loadBalancerBackendAddressPools" (JValue.arr [])
      let pools := match poolsV with | JValue.arr xs => xs | _ => []
      let m ← pools.foldlM (fun m pool => lbPoolAdd resourceId pool m) m
      let natV ← jGet ipConfig "loadBalancerInboundNatPools" (JValue.arr [])
      let nats := match natV with | JValue.arr xs => xs | _ => []
      nats.foldlM (fun m pool => lbPoolAdd resourceId pool m) m
  | _ => pure m

/-- VMSS `virtualMachineProfile` network block
(`azure_resource_graph.py:1640`-`1698`). -/
def vmssProfileBlock (resources : List Resource) (resourceId : String)
    (properties : JValue) (m : Deps) : PyM Deps :=
  if properties.truthy then do
    let b ← jContains "virtualMachineProfile" properties
    if b then do
      let vmProfile ← jGet properties "virtualMachineProfile" (JValue.obj [])
      let networkProfile ← jGet vmProfile "networkProfile" (JValue.obj [])
      let nicConfigsV ← jGet networkProfile "networkInterfaceConfigurations" (JValue.arr [])
      let nicConfigs := match nicConfigsV with | JValue.arr xs => xs | _ => []
      nicConfigs.foldlM (fun m nc =>
        match nc with
        | JValue.obj _ => do
            let ipConfigsV ← jGet nc "ipConfigurations" (JValue.arr [])
            let ipConfigs := match ipConfigsV with | JValue.arr xs => xs | _ => []
            ipConfigs.foldlM (fun m ic => vmssIpConfig resources resourceId ic m) m
        | _ => pure m) m
    else pure m
  else pure m

/-- `microsoft.compute/virtualmachinescalesets` rule
(`azure_resource_graph.py:1629`-`1707`). -/
def ruleVMSS (resources : List Resource) (resourceId : String)
    (properties specificConfig networkInfo : JValue) (m : Deps) : PyM Deps := do
  let m ← condStep specificConfig.truthy
    (addNameInValue resources resourceId ["microsoft.storage/storageaccounts"]
      (dumps specificConfig) false) m
  let m ← vmssProfileBlock resources resourceId properties m
  if networkInfo.truthy then do
    let albV ← jGet networkInfo "associatedLoadBalancers" (JValue.arr [])
    let items ← jIter albV
    items.foldlM (fun m lbName =>
      resources.foldlM (fun m lb =>
        if lb.type == some "microsoft.network/loadbalancers" && optStrEqJ lb.name lbName then
          match lb.id with
          | some s => addConf m resourceId (JValue.str s)
          | none => Except.error "KeyError"
        else pure m) m) m
  else pure m

/-- `microsoft.storage/storageaccounts` rule
(`azure_resource_graph.py:1709`-`1724`). -/
def ruleStorage (resources : List Resource) (resourceId : String)
    (specificConfig : JValue) (m : Deps) : PyM Deps := do
  if specificConfig.truthy then do
    let b ← jContains "networkRuleSet" specificConfig
    if b then do
      let networkRules ← jGet specificConfig "networkRuleSet" (JValue.obj [])
      let vnetRulesV ← jGet networkRules "virtualNetworkRules" (JValue.arr [])
      let vnetRules := match vnetRulesV with | JValue.arr xs => xs | _ => []
      vnetRules.foldlM (fun m vr =>
        match vr with
        | JValue.obj vkvs =>
            if vkvs.any (fun p => p.1 == "id") then do
              let sid ← jIndexS vr "id"
              addVnetParents resources resourceId sid m
            else pure m
        | _ => pure m) m
    else pure m
  else pure m

/-- Dispatch over the type-specific rules
(`azure_resource_graph.py:1259`-`1724`). -/
def typeRules (az : String → Option JValue) (subscriptionId : String)
    (resources : List Resource) (r : Resource) (resourceId resourceType : String)
    (properties envVars networkInfo specificConfig : JValue) (m : Deps) : PyM Deps :=
  if resourceType == "microsoft.app/containerapps" then
    ruleContainerApps az subscriptionId resources resourceId properties m
  else if resourceType == "microsoft.web/sites" then
    (if hasSub "functionapp" (pyLower (r.kind.getD "")) then
      ruleWebSitesFunc resources resourceId properties envVars networkInfo m
    else
      ruleWebSitesRegular resources resourceId properties envVars m)
  else if resourceType == "microsoft.insights/components" then
    ruleInsights resources resourceId specificConfig m
  else if resourceType == "microsoft.apimanagement/service" then
    ruleApim resources resourceId specificConfig m
  else if resourceType == "microsoft.keyvault/vaults" then
    ruleKeyVault specificConfig m
  else if resourceType == "microsoft.compute/virtualmachines" then
    ruleVM resources resourceId properties specificConfig m
  else if resourceType == "microsoft.compute/virtualmachinescalesets" then
    ruleVMSS resources resourceId properties specificConfig networkInfo m
  else if resourceType == "microsoft.storage/storageaccounts" then
    ruleStorage resources resourceId specificConfig m
  else pure m

/-- Combined `appSettings` and `connectionStrings` scan applied to every
resource with truthy `environmentVariables`
(`azure_resource_graph.py:1216`-`1245`). -/
def envScansBlock (resources : List Resource) (resourceId : String)
    (envVars : JValue) (m : Deps) : PyM Deps :=
  if envVars.truthy then do
    let m ← scanEnvMap resources resourceId envVars "appSettings" m
    scanEnvMap resources resourceId envVars "connectionStrings" m
  else pure m

/-- Body of the main per-resource loop
(`azure_resource_graph.py:1179`-`1724`): skip resources with a falsy `id`
or `type`, run the ID-containment scan, the env-var and network-info scans,
then the type-specific rules. -/
def processResource (az : String → Option JValue) (subscriptionId : String)
    (resources : List Resource) (m : Deps) (r : Resource) : PyM Deps :=
  match r.id with
  | none => pure m
  | some resourceId =>
    if resourceId.isEmpty then pure m
    else match r.type with
      | none => pure m
      | some resourceType =>
        if resourceType.isEmpty then pure m
        else do
          let properties := r.properties.getD (JValue.obj [])
          let envVars := r.environmentVariables.getD (JValue.obj [])
          let networkInfo := r.networkInfo.getD (JValue.obj [])
          let specificConfig := r.specificConfiguration.getD (JValue.obj [])
          let allResourceData := dumps (jBlob r)
          let m ← idContainmentScan resources resourceId allResourceData m
          let m ← envScansBlock resources resourceId envVars m
          let m ← condStep networkInfo.truthy
            (scanNetworkInfo resources resourceId networkInfo) m
          typeRules az subscriptionId resources r resourceId resourceType
            properties envVars networkInfo specificConfig m

/-- Initialization loop (`azure_resource_graph.py:1167`-`1174`): every
resource with a truthy `id` gets an empty confirmed and potential set
before any rule runs. -/
def initStep (m : Deps) (r : Resource) : Deps :=
  match r.id with
  | some resourceId =>
      if !resourceId.isEmpty then
        ⟨setEntry m.confirmed resourceId [], setEntry m.potential resourceId []⟩
      else m
  | none => m

def initDeps (resources : List Resource) : Deps :=
  resources.foldl initStep ⟨[], []⟩

/-- Implicit type-pair loop (`azure_resource_graph.py:1727`-`1744`):
dashboards and container-app environments point at every App-Insights
component. -/
def implicitRules (resources : List Resource) (m : Deps) : PyM Deps :=
  resources.foldlM (fun m r =>
    match r.id with
    | some resourceId =>
        if !resourceId.isEmpty then do
          let m ← condStep (r.type == some "microsoft.portal/dashboards")
            (fun m => addAllOfType resources resourceId ["microsoft.insights/components"] m) m
          condStep (r.type == some "microsoft.app/managedenvironments")
            (fun m => addAllOfType resources resourceId ["microsoft.insights/components"] m) m
        else pure m
    | none => pure m) m

/-- Embedding of `get_resource_dependencies`
(`azure_resource_graph.py:1153`-`1746`). -/
def get_resource_dependencies (az : String → Option JValue) (subscriptionId : String)
    (resources : List Resource) : PyM Deps := do
  let m := initDeps resources
  let m ← resources.foldlM (fun m r => processResource az subscriptionId resources m r) m
  implicitRules resources m

mutual
/-- Embedding of `remove_none` (`azure_resource_graph.py:1793`-`1804`):
dicts keep a key only when the cleaned value is truthy, lists drop `None`
elements then clean the rest, everything else passes through. -/
def remove_none : JValue → JValue
  | .null => .null
  | .bool b => .bool b
  | .num n => .num n
  | .str s => .str s
  | .arr xs => .arr (removeNoneL xs)
  | .obj kvs => .obj (removeNoneO kvs)

/-- List clause of `remove_none`: drop `None` elements, clean the rest. -/
def removeNoneL : List JValue → List JValue
  | [] => []
  | x :: xs => if x = JValue.null then removeNoneL xs else remove_none x :: removeNoneL xs

/-- Dict clause of `remove_none`: keep a key only when its cleaned value is
truthy. -/
def removeNoneO : List (String × JValue) → List (String × JValue)
  | [] => []
  | (k, v) :: kvs =>
      let cv := remove_none v
      if cv.truthy then (k, cv) :: removeNoneO kvs else removeNoneO kvs
end

/-- Serialization of a dependency map as written by `main`
(`azure_resource_graph.py:1848`, `1856`): `{k: list(v) for k, v in deps.items()}`. -/
def depsToJson (m : DepMap) : JValue :=
  JValue.obj (m.map (fun p => (p.1, JValue.arr p.2)))

/-- The fields of a JSON object, empty for any other value. -/
def objFields : JValue → List (String × JValue)
  | .obj kvs => kvs
  | _ => []

/-- Top-level snapshot dict built by `main` before `remove_none` and
`json.dump` (`azure_resource_graph.py:1851`-`1870`). -/
def snapshotJson (subscriptionId : String) (resourcesJ rgJ : JValue)
    (conf pot : DepMap) (metaJ : JValue) : JValue :=
  JValue.obj [
    ("subscription_id", JValue.str subscriptionId),
    ("resources", resourcesJ),
    ("resource_groups", rgJ),
    ("confirmed_dependencies", depsToJson conf),
    ("potential_dependencies", depsToJson pot),
    ("metadata", metaJ)]

def keysOf (m : DepMap) : List String := m.map Prod.fst

/-- Relation between the dependency maps before and after a step of the
engine: the key sets never change and the sets only grow. -/
structure Extends (m m' : Deps) : Prop where
  keysC : keysOf m'.confirmed = keysOf m.confirmed
  keysP : keysOf m'.potential = keysOf m.potential
  memC : ∀ k v, v ∈ lookupD m.confirmed k → v ∈ lookupD m'.confirmed k
  memP : ∀ k v, v ∈ lookupD m.potential k → v ∈ lookupD m'.potential k

theorem Extends.refl {m : Deps} : Extends m m :=
  ⟨Eq.refl _, Eq.refl _, fun _ _ h => h, fun _ _ h => h⟩

theorem Extends.trans {m1 m2 m3 : Deps} (h1 : Extends m1 m2) (h2 : Extends m2 m3) :
    Extends m1 m3 :=
  ⟨h2.keysC.trans h1.keysC, h2.keysP.trans h1.keysP,
   fun k v h => h2.memC k v (h1.memC k v h),
   fun k v h => h2.memP k v (h1.memP k v h)⟩

theorem mem_setAdd {s : List JValue} {v x : JValue} :
    x ∈ setAdd s v ↔ x ∈ s ∨ x = v := by
  unfold setAdd
  split
  next h =>
    constructor
    · exact Or.inl
    · rintro (hx | hx)
      · exact hx
      · subst hx
        exact List.mem_of_elem_eq_true h
  next h =>
    simp [List.mem_append]

theorem mem_setAdd_self {s : List JValue} {v : JValue} : v ∈ setAdd s v :=
  mem_setAdd.mpr (Or.inr rfl)

theorem lookupD_cons {p : String × List JValue} {t : DepMap} {k : String} :
    lookupD (p :: t) k = if (p.1 == k) then p.2 else lookupD t k := by
  by_cases h : p.1 == k <;> simp [lookupD, List.find?_cons, h]

theorem hasKey_cons {p : String × List JValue} {t : DepMap} {k : String} :
    hasKey (p :: t) k = (p.1 == k || hasKey t k) := by
  simp [hasKey]

theorem keysOf_addMap {m : DepMap} {k : String} {v : JValue} :
    keysOf (m.map (fun p => if p.1 == k then (p.1, setAdd p.2 v) else p)) = keysOf m := by
  induction m with
  | nil => rfl
  | cons p t ih =>
    have hfp : (if p.1 == k then (p.1, setAdd p.2 v) else p).1 = p.1 := by
      by_cases h : p.1 == k <;> simp [h]
    simp only [keysOf, List.map_cons] at ih ⊢
    rw [hfp, ih]

theorem lookupD_addMap_ne {m : DepMap} {k k2 : String} {v : JValue} (h : k2 ≠ k) :
    lookupD (m.map (fun p => if p.1 == k then (p.1, setAdd p.2 v) else p)) k2
      = lookupD m k2 := by
  induction m with
  | nil => rfl
  | cons p t ih =>
    simp only [List.map_cons]
    by_cases hk : p.1 == k
    · have hp1 : p.1 = k := eq_of_beq hk
      have h2 : (p.1 == k2) = false := by
        simp only [beq_eq_false_iff_ne, hp1]
        exact fun hc => h hc.symm
      rw [lookupD_cons, lookupD_cons]
      simp only [hk, if_true, h2]
      simp only [Bool.false_eq_true, if_false]
      exact ih
    · rw [lookupD_cons, lookupD_cons]
      simp only [hk, Bool.false_eq_true, if_false]
      by_cases h2 : p.1 == k2
      · simp [h2]
      · simp only [h2, Bool.false_eq_true, if_false]
        exact ih

theorem lookupD_addMap_eq {m : DepMap} {k : String} {v : JValue} (h : hasKey m k = true) :
    lookupD (m.map (fun p => if p.1 == k then (p.1, setAdd p.2 v) else p)) k
      = setAdd (lookupD m k) v := by
  induction m with
  | nil => simp [hasKey] at h
  | cons p t ih =>
    simp only [List.map_cons]
    by_cases hk : p.1 == k
    · rw [lookupD_cons, lookupD_cons]
      simp [hk]
    · rw [hasKey_cons] at h
      simp only [hk, Bool.false_or] at h
      rw [lookupD_cons, lookupD_cons]
      simp only [hk, Bool.false_eq_true, if_false]
      exact ih h

theorem pure_ok {m m' : Deps} (h : (pure m : PyM Deps) = Except.ok m') : m = m' := by
  simpa [pure, Except.pure] using h

theorem bind_pym_ok {β : Type} {e : PyM β} {f : β → PyM Deps} {m' : Deps}
    (h : (e >>= f) = Except.ok m') : ∃ b, e = Except.ok b ∧ f b = Except.ok m' := by
  cases e with
  | ok b =>
    refine ⟨b, rfl, ?_⟩
    simpa [Bind.bind, Except.bind] using h
  | error err => simp [Bind.bind, Except.bind] at h

theorem addEntry_ok_iff {m : DepMap} {k : String} {v : JValue} {m' : DepMap} :
    addEntry m k v = Except.ok m' ↔ hasKey m k = true ∧ isHashable v = true ∧
      m' = m.map (fun p => if p.1 == k then (p.1, setAdd p.2 v) else p) := by
  unfold addEntry
  by_cases h1 : hasKey m k
  · by_cases h2 : isHashable v
    · simp only [h1, h2, if_true, pure, Except.pure, Except.ok.injEq, true_and]
      exact eq_comm
    · simp [h1, h2]
  · simp [h1]

theorem addEntry_keys {m : DepMap} {k : String} {v : JValue} {m' : DepMap}
    (h : addEntry m k v = Except.ok m') : keysOf m' = keysOf m := by
  obtain ⟨_, _, rfl⟩ := addEntry_ok_iff.mp h
  exact keysOf_addMap

theorem addEntry_mem_iff {m : DepMap} {k : String} {v : JValue} {m' : DepMap}
    (h : addEntry m k v = Except.ok m') (k2 : String) (x : JValue) :
    x ∈ lookupD m' k2 ↔ x ∈ lookupD m k2 ∨ (k2 = k ∧ x = v) := by
  obtain ⟨h1, _, rfl⟩ := addEntry_ok_iff.mp h
  by_cases hk : k2 = k
  · subst hk
    rw [lookupD_addMap_eq h1, mem_setAdd]
    tauto
  · rw [lookupD_addMap_ne hk]
    tauto

theorem addEntry_mem_mono {m : DepMap} {k : String} {v : JValue} {m' : DepMap}
    (h : addEntry m k v = Except.ok m') (k2 : String) (x : JValue)
    (hx : x ∈ lookupD m k2) : x ∈ lookupD m' k2 :=
  (addEntry_mem_iff h k2 x).mpr (Or.inl hx)

theorem addEntry_mem_self {m : DepMap} {k : String} {v : JValue} {m' : DepMap}
    (h : addEntry m k v = Except.ok m') : v ∈ lookupD m' k :=
  (addEntry_mem_iff h k v).mpr (Or.inr ⟨rfl, rfl⟩)

theorem addConf_ok_iff {m : Deps} {k : String} {v : JValue} {m' : Deps} :
    addConf m k v = Except.ok m' ↔
      ∃ c, addEntry m.confirmed k v = Except.ok c ∧ m' = ⟨c, m.potential⟩ := by
  unfold addConf
  cases h : addEntry m.confirmed k v <;>
    simp [h, Bind.bind, Except.bind, pure, Except.pure, eq_comm]

theorem addPot_ok_iff {m : Deps} {k : String} {v : JValue} {m' : Deps} :
    addPot m k v = Except.ok m' ↔
      ∃ p, addEntry m.potential k v = Except.ok p ∧ m' = ⟨m.confirmed, p⟩ := by
  unfold addPot
  cases h : addEntry m.potential k v <;>
    simp [h, Bind.bind, Except.bind, pure, Except.pure, eq_comm]

theorem addConf_extends {m : Deps} {k : String} {v : JValue} {m' : Deps}
    (h : addConf m k v = Except.ok m') : Extends m m' := by
  obtain ⟨c, hc, rfl⟩ := addConf_ok_iff.mp h
  exact ⟨addEntry_keys hc, rfl, fun k2 x hx => addEntry_mem_mono hc k2 x hx,
    fun _ _ hx => hx⟩

theorem addPot_extends {m : Deps} {k : String} {v : JValue} {m' : Deps}
    (h : addPot m k v = Except.ok m') : Extends m m' := by
  obtain ⟨p, hp, rfl⟩ := addPot_ok_iff.mp h
  exact ⟨rfl, addEntry_keys hp, fun _ _ hx => hx,
    fun k2 x hx => addEntry_mem_mono hp k2 x hx⟩

theorem addConf_mem {m : Deps} {k : String} {v : JValue} {m' : Deps}
    (h : addConf m k v = Except.ok m') : v ∈ lookupD m'.confirmed k := by
  obtain ⟨c, hc, rfl⟩ := addConf_ok_iff.mp h
  exact addEntry_mem_self hc

theorem addPot_mem {m : Deps} {k : String} {v : JValue} {m' : Deps}
    (h : addPot m k v = Except.ok m') : v ∈ lookupD m'.potential k := by
  obtain ⟨p, hp, rfl⟩ := addPot_ok_iff.mp h
  exact addEntry_mem_self hp

theorem addConf_conf_iff {m : Deps} {k : String} {v : JValue} {m' : Deps}
    (h : addConf m k v = Except.ok m') (k2 : String) (x : JValue) :
    x ∈ lookupD m'.confirmed k2 ↔ x ∈ lookupD m.confirmed k2 ∨ (k2 = k ∧ x = v) := by
  obtain ⟨c, hc, rfl⟩ := addConf_ok_iff.mp h
  exact addEntry_mem_iff hc k2 x

theorem addConf_pot_eq {m : Deps} {k : String} {v : JValue} {m' : Deps}
    (h : addConf m k v = Except.ok m') : m'.potential = m.potential := by
  obtain ⟨c, hc, rfl⟩ := addConf_ok_iff.mp h
  rfl

theorem addPot_pot_iff {m : Deps} {k : String} {v : JValue} {m' : Deps}
    (h : addPot m k v = Except.ok m') (k2 : String) (x : JValue) :
    x ∈ lookupD m'.potential k2 ↔ x ∈ lookupD m.potential k2 ∨ (k2 = k ∧ x = v) := by
  obtain ⟨p, hp, rfl⟩ := addPot_ok_iff.mp h
  exact addEntry_mem_iff hp k2 x

theorem addPot_conf_eq {m : Deps} {k : String} {v : JValue} {m' : Deps}
    (h : addPot m k v = Except.ok m') : m'.confirmed = m.confirmed := by
  obtain ⟨p, hp, rfl⟩ := addPot_ok_iff.mp h
  rfl

theorem addPotRes_ok_iff {m : Deps} {k : String} {dep : Resource} {m' : Deps} :
    addPotRes m k dep = Except.ok m' ↔
      ∃ s, dep.id = some s ∧ addPot m k (JValue.str s) = Except.ok m' := by
  unfold addPotRes
  cases h : dep.id <;> simp [h]

theorem addPotRes_extends {m : Deps} {k : String} {dep : Resource} {m' : Deps}
    (h : addPotRes m k dep = Except.ok m') : Extends m m' := by
  obtain ⟨s, _, hs⟩ := addPotRes_ok_iff.mp h
  exact addPot_extends hs

theorem foldlM_ok_cons {α : Type} {f : Deps → α → PyM Deps} {x : α} {xs : List α}
    {m m' : Deps} :
    (x :: xs).foldlM f m = Except.ok m' ↔
      ∃ m1, f m x = Except.ok m1 ∧ xs.foldlM f m1 = Except.ok m' := by
  rw [List.foldlM_cons]
  cases h : f m x <;> simp [h, Bind.bind, Except.bind]

theorem foldlM_ok_nil {α : Type} {f : Deps → α → PyM Deps} {m m' : Deps} :
    ([] : List α).foldlM f m = Except.ok m' ↔ m' = m := by
  simp [List.foldlM_nil, pure, Except.pure, eq_comm]

theorem foldlM_extends {α : Type} (body : Deps → α → PyM Deps) :
    ∀ (xs : List α) (m m' : Deps),
      (∀ m2 x, x ∈ xs → ∀ m3, body m2 x = Except.ok m3 → Extends m2 m3) →
      xs.foldlM body m = Except.ok m' → Extends m m'
  | [], m, m', _, h => by
      cases foldlM_ok_nil.mp h
      exact Extends.refl
  | x :: xs, m, m', hb, h => by
      obtain ⟨m1, h1, h2⟩ := foldlM_ok_cons.mp h
      exact (hb m x (List.mem_cons_self x xs) m1 h1).trans
        (foldlM_extends body xs m1 m'
          (fun m2 y hy => hb m2 y (List.mem_cons_of_mem x hy)) h2)

theorem foldlM_ok_append {α : Type} (f : Deps → α → PyM Deps) :
    ∀ (l1 : List α) (l2 : List α) (m m' : Deps),
      (l1 ++ l2).foldlM f m = Except.ok m' →
      ∃ m1, l1.foldlM f m = Except.ok m1 ∧ l2.foldlM f m1 = Except.ok m'
  | [], _, m, _, h => ⟨m, foldlM_ok_nil.mpr rfl, h⟩
  | x :: l1, l2, m, m', h => by
      rw [List.cons_append] at h
      obtain ⟨m1, h1, h2⟩ := foldlM_ok_cons.mp h
      obtain ⟨m2, h3, h4⟩ := foldlM_ok_append f l1 l2 m1 m' h2
      exact ⟨m2, foldlM_ok_cons.mpr ⟨m1, h1, h3⟩, h4⟩

theorem idContainmentScan_extends {resources : List Resource} {rid blob : String}
    {m m' : Deps} (h : idContainmentScan resources rid blob m = Except.ok m') :
    Extends m m' := by
  unfold idContainmentScan at h
  refine foldlM_extends _ _ _ _ ?_ h
  intro m2 dep _ m3 hstep
  split at hstep
  all_goals first
    | exact addConf_extends hstep
    | (cases pure_ok hstep; exact Extends.refl)
    | (split at hstep
       all_goals first
         | exact addConf_extends hstep
         | (cases pure_ok hstep; exact Extends.refl))

theorem nameMatchScan_extends {resources : List Resource} {rid value : String}
    {m m' : Deps} (h : nameMatchScan resources rid value m = Except.ok m') :
    Extends m m' := by
  unfold nameMatchScan at h
  refine foldlM_extends _ _ _ _ ?_ h
  intro m2 dep _ m3 hstep
  dsimp only at hstep
  split at hstep
  · split at hstep
    · exact addPotRes_extends hstep
    · split at hstep
      · exact addPotRes_extends hstep
      · cases pure_ok hstep; exact Extends.refl
  · cases pure_ok hstep; exact Extends.refl

theorem netValueScan_extends {resources : List Resource} {rid value : String}
    {m m' : Deps} (h : netValueScan resources rid value m = Except.ok m') :
    Extends m m' := by
  unfold netValueScan at h
  refine foldlM_extends _ _ _ _ ?_ h
  intro m2 dep _ m3 hstep
  dsimp only at hstep
  split at hstep
  · exact addPotRes_extends hstep
  · cases pure_ok hstep; exact Extends.refl

theorem scanEnvMap_extends {resources : List Resource} {rid : String}
    {envVars : JValue} {key : String} {m m' : Deps}
    (h : scanEnvMap resources rid envVars key m = Except.ok m') : Extends m m' := by
  unfold scanEnvMap at h
  obtain ⟨settings, _, h⟩ := bind_pym_ok h
  obtain ⟨items, _, h⟩ := bind_pym_ok h
  refine foldlM_extends _ _ _ _ ?_ h
  intro m2 kv _ m3 hstep
  split at hstep
  all_goals first
    | exact nameMatchScan_extends hstep
    | (cases pure_ok hstep; exact Extends.refl)

theorem scanNetworkInfo_extends {resources : List Resource} {rid : String}
    {networkInfo : JValue} {m m' : Deps}
    (h : scanNetworkInfo resources rid networkInfo m = Except.ok m') : Extends m m' := by
  unfold scanNetworkInfo at h
  obtain ⟨items, _, h⟩ := bind_pym_ok h
  refine foldlM_extends _ _ _ _ ?_ h
  intro m2 kv _ m3 hstep
  split at hstep
  all_goals first
    | exact netValueScan_extends hstep
    | (cases pure_ok hstep; exact Extends.refl)

theorem addNameInValue_extends {resources : List Resource} {rid : String}
    {tys : List String} {value : String} {conf : Bool} {m m' : Deps}
    (h : addNameInValue resources rid tys value conf m = Except.ok m') :
    Extends m m' := by
  unfold addNameInValue at h
  refine foldlM_extends _ _ _ _ ?_ h
  intro m2 dep _ m3 hstep
  split at hstep
  · split at hstep
    · split at hstep
      · split at hstep
        · split at hstep
          · exact addConf_extends hstep
          · exact addPot_extends hstep
        · simp at hstep
      · cases pure_ok hstep; exact Extends.refl
    · cases pure_ok hstep; exact Extends.refl
  · cases pure_ok hstep; exact Extends.refl

theorem addAllOfType_extends {resources : List Resource} {rid : String}
    {tys : List String} {m m' : Deps}
    (h : addAllOfType resources rid tys m = Except.ok m') : Extends m m' := by
  unfold addAllOfType at h
  refine foldlM_extends _ _ _ _ ?_ h
  intro m2 dep _ m3 hstep
  split at hstep
  · split at hstep
    · exact addPot_extends hstep
    · simp at hstep
  · cases pure_ok hstep; exact Extends.refl

theorem addVnetParents_extends {resources : List Resource} {rid : String}
    {subnetId : JValue} {m m' : Deps}
    (h : addVnetParents resources rid subnetId m = Except.ok m') : Extends m m' := by
  unfold addVnetParents at h
  refine foldlM_extends _ _ _ _ ?_ h
  intro m2 dep _ m3 hstep
  split at hstep
  · split at hstep
    · split at hstep
      · obtain ⟨b, _, hstep⟩ := bind_pym_ok hstep
        split at hstep
        · exact addConf_extends hstep
        · cases pure_ok hstep; exact Extends.refl
      · cases pure_ok hstep; exact Extends.refl
    · cases pure_ok hstep; exact Extends.refl
  · cases pure_ok hstep; exact Extends.refl

theorem lbPoolAdd_extends {rid : String} {pool : JValue} {m m' : Deps}
    (h : lbPoolAdd rid pool m = Except.ok m') : Extends m m' := by
  unfold lbPoolAdd at h
  split at h
  · split at h
    · obtain ⟨pidV, _, h⟩ := bind_pym_ok h
      split at h
      · dsimp only at h
        split at h
        · exact addConf_extends h
        · cases pure_ok h; exact Extends.refl
      · simp at h
    · cases pure_ok h; exact Extends.refl
  · cases pure_ok h; exact Extends.refl

theorem condStep_extends {c : Bool} {act : Deps → PyM Deps} {m m' : Deps}
    (hact : ∀ m2 m3, act m2 = Except.ok m3 → Extends m2 m3)
    (h : condStep c act m = Except.ok m') : Extends m m' := by
  unfold condStep at h
  split at h
  · exact hact _ _ h
  · cases pure_ok h; exact Extends.refl

theorem condStep_true {c : Bool} {act : Deps → PyM Deps} {m : Deps}
    (hc : c = true) : condStep c act m = act m := by
  simp [condStep, hc]

theorem acrAttempt_extends {az : String → Option JValue} {subId : String}
    {m : Deps} {rid : String} {acr : Resource} {server : JValue} {m' : Deps}
    (h : acrAttempt az subId m rid acr server = Except.ok m') : Extends m m' := by
  unfold acrAttempt at h
  split at h
  · split at h
    · obtain ⟨dataV, _, h⟩ := bind_pym_ok h
      split at h
      · split at h
        · split at h
          · obtain ⟨ls, _, h⟩ := bind_pym_ok h
            split at h
            · split at h
              · exact addConf_extends h
              · simp at h
            · cases pure_ok h; exact Extends.refl
          · cases pure_ok h; exact Extends.refl
        · cases pure_ok h; exact Extends.refl
        · simp at h
        · cases pure_ok h; exact Extends.refl
        · simp at h
      · cases pure_ok h; exact Extends.refl
    · cases pure_ok h; exact Extends.refl
  · cases pure_ok h; exact Extends.refl

theorem acrLoginCheck_extends {az : String → Option JValue} {subId : String}
    {m : Deps} {rid : String} {acr : Resource} {server : JValue} :
    Extends m (acrLoginCheck az subId m rid acr server) := by
  unfold acrLoginCheck pyTry
  split
  next m2 heq => exact acrAttempt_extends heq
  next => exact Extends.refl

theorem caSecretRule_extends {resources : List Resource} {rid sn : String}
    {m m' : Deps} (h : caSecretRule resources rid sn m = Except.ok m') :
    Extends m m' := by
  unfold caSecretRule at h
  dsimp only at h
  split at h
  · exact addAllOfType_extends h
  · split at h
    · exact addAllOfType_extends h
    · split at h
      · exact addAllOfType_extends h
      · cases pure_ok h; exact Extends.refl

theorem caSecretRefRule_extends {resources : List Resource} {rid sr : String}
    {m m' : Deps} (h : caSecretRefRule resources rid sr m = Except.ok m') :
    Extends m m' := by
  unfold caSecretRefRule at h
  dsimp only at h
  split at h
  · exact addAllOfType_extends h
  · split at h
    · exact addAllOfType_extends h
    · cases pure_ok h; exact Extends.refl

theorem caConfigRules_extends {az : String → Option JValue} {subId : String}
    {resources : List Resource} {rid : String} {config : JValue} {m m' : Deps}
    (h : caConfigRules az subId resources rid config m = Except.ok m') :
    Extends m m' := by
  unfold caConfigRules at h
  split at h
  · obtain ⟨registriesV, _, h⟩ := bind_pym_ok h
    dsimp only at h
    obtain ⟨m1, hreg, h⟩ := bind_pym_ok h
    have ereg : Extends m m1 := by
      refine foldlM_extends _ _ _ _ ?_ hreg
      intro ma reg _ mb hstep
      split at hstep
      · obtain ⟨server, _, hstep⟩ := bind_pym_ok hstep
        refine foldlM_extends _ _ _ _ ?_ hstep
        intro mc acr _ md hstep2
        split at hstep2
        · cases pure_ok hstep2; exact acrLoginCheck_extends
        · cases pure_ok hstep2; exact Extends.refl
      · cases pure_ok hstep; exact Extends.refl
    obtain ⟨secretsV, _, h⟩ := bind_pym_ok h
    try dsimp only at h
    refine ereg.trans ?_
    refine foldlM_extends _ _ _ _ ?_ h
    intro ma secret _ mb hstep
    split at hstep
    · obtain ⟨sn, _, hstep⟩ := bind_pym_ok hstep
      split at hstep
      · exact caSecretRule_extends hstep
      · simp at hstep
    · cases pure_ok hstep; exact Extends.refl
  · cases pure_ok h; exact Extends.refl

theorem caTemplateRules_extends {resources : List Resource} {rid : String}
    {template : JValue} {m m' : Deps}
    (h : caTemplateRules resources rid template m = Except.ok m') :
    Extends m m' := by
  unfold caTemplateRules at h
  split at h
  · obtain ⟨containersV, _, h⟩ := bind_pym_ok h
    try dsimp only at h
    refine foldlM_extends _ _ _ _ ?_ h
    intro ma container _ mb hstep
    split at hstep
    · split at hstep
      · obtain ⟨envListV, _, hstep⟩ := bind_pym_ok hstep
        try dsimp only at hstep
        refine foldlM_extends _ _ _ _ ?_ hstep
        intro mc envVar _ md hstep2
        split at hstep2
        · split at hstep2
          · obtain ⟨sr, _, hstep2⟩ := bind_pym_ok hstep2
            split at hstep2
            · exact caSecretRefRule_extends hstep2
            · simp at hstep2
          · cases pure_ok hstep2; exact Extends.refl
        · cases pure_ok hstep2; exact Extends.refl
      · cases pure_ok hstep; exact Extends.refl
    · cases pure_ok hstep; exact Extends.refl
  · cases pure_ok h; exact Extends.refl

theorem ruleContainerApps_extends {az : String → Option JValue} {subId : String}
    {resources : List Resource} {rid : String} {properties : JValue} {m m' : Deps}
    (h : ruleContainerApps az subId resources rid properties m = Except.ok m') :
    Extends m m' := by
  unfold ruleContainerApps at h
  obtain ⟨mei, _, h⟩ := bind_pym_ok h
  obtain ⟨m1, h1, h⟩ := bind_pym_ok h
  have e1 : Extends m m1 :=
    condStep_extends (fun _ _ hc => addConf_extends hc) h1
  obtain ⟨config, _, h⟩ := bind_pym_ok h
  obtain ⟨m2, h2, h⟩ := bind_pym_ok h
  have e2 : Extends m1 m2 := caConfigRules_extends h2
  obtain ⟨template, _, h⟩ := bind_pym_ok h
  exact (e1.trans e2).trans (caTemplateRules_extends h)

theorem funcAppSettingRules_extends {resources : List Resource} {rid sn value : String}
    {m m' : Deps} (h : funcAppSettingRules resources rid sn value m = Except.ok m') :
    Extends m m' := by
  unfold funcAppSettingRules at h
  obtain ⟨m1, h1, h⟩ := bind_pym_ok h
  obtain ⟨m2, h2, h⟩ := bind_pym_ok h
  obtain ⟨m3, h3, h⟩ := bind_pym_ok h
  obtain ⟨m4, h4, h⟩ := bind_pym_ok h
  obtain ⟨m5, h5, h⟩ := bind_pym_ok h
  obtain ⟨m6, h6, h⟩ := bind_pym_ok h
  obtain ⟨m7, h7, h⟩ := bind_pym_ok h
  have s : ∀ {c : Bool} {tys : List String} {cf : Bool} {ma mb : Deps},
      condStep c (addNameInValue resources rid tys value cf) ma = Except.ok mb →
      Extends ma mb :=
    fun hh => condStep_extends (fun _ _ hx => addNameInValue_extends hx) hh
  exact ((((((s h1).trans (s h2)).trans (s h3)).trans (s h4)).trans (s h5)).trans
    ((s h6).trans (s h7))).trans (s h)

theorem fnVnetIntegration_extends {resources : List Resource} {rid : String}
    {networkInfo : JValue} {m m' : Deps}
    (h : fnVnetIntegration resources rid networkInfo m = Except.ok m') :
    Extends m m' := by
  unfold fnVnetIntegration at h
  obtain ⟨b, _, h⟩ := bind_pym_ok h
  split at h
  · obtain ⟨vis, _, h⟩ := bind_pym_ok h
    obtain ⟨items, _, h⟩ := bind_pym_ok h
    refine foldlM_extends _ _ _ _ ?_ h
    intro ma vi _ mb hstep
    split at hstep
    · obtain ⟨vid, _, hstep⟩ := bind_pym_ok hstep
      obtain ⟨sid, _, hstep⟩ := bind_pym_ok hstep
      obtain ⟨mc, hc, hstep⟩ := bind_pym_ok hstep
      exact (condStep_extends (fun _ _ hx => addConf_extends hx) hc).trans
        (condStep_extends (fun _ _ hx => addVnetParents_extends hx) hstep)
    · cases pure_ok hstep; exact Extends.refl
  · cases pure_ok h; exact Extends.refl

theorem fnPrivateEndpoints_extends {rid : String} {networkInfo : JValue} {m m' : Deps}
    (h : fnPrivateEndpoints rid networkInfo m = Except.ok m') : Extends m m' := by
  unfold fnPrivateEndpoints at h
  obtain ⟨b, _, h⟩ := bind_pym_ok h
  split at h
  · obtain ⟨pes, _, h⟩ := bind_pym_ok h
    obtain ⟨items, _, h⟩ := bind_pym_ok h
    refine foldlM_extends _ _ _ _ ?_ h
    intro ma pe _ mb hstep
    split at hstep
    · obtain ⟨peInfo, _, hstep⟩ := bind_pym_ok hstep
      split at hstep
      · split at hstep
        · obtain ⟨pid, _, hstep⟩ := bind_pym_ok hstep
          exact addConf_extends hstep
        · cases pure_ok hstep; exact Extends.refl
      · cases pure_ok hstep; exact Extends.refl
    · cases pure_ok hstep; exact Extends.refl
  · cases pure_ok h; exact Extends.refl

theorem fnSettingsBlock_extends {resources : List Resource} {rid : String}
    {envVars : JValue} {m m' : Deps}
    (h : fnSettingsBlock resources rid envVars m = Except.ok m') : Extends m m' := by
  unfold fnSettingsBlock at h
  split at h
  · obtain ⟨b, _, h⟩ := bind_pym_ok h
    split at h
    · obtain ⟨funcSettings, _, h⟩ := bind_pym_ok h
      obtain ⟨items, _, h⟩ := bind_pym_ok h
      refine foldlM_extends _ _ _ _ ?_ h
      intro ma kv _ mb hstep
      split at hstep
      all_goals first
        | exact funcAppSettingRules_extends hstep
        | (cases pure_ok hstep; exact Extends.refl)
    · cases pure_ok h; exact Extends.refl
  · cases pure_ok h; exact Extends.refl

theorem ruleWebSitesFunc_extends {resources : List Resource} {rid : String}
    {properties envVars networkInfo : JValue} {m m' : Deps}
    (h : ruleWebSitesFunc resources rid properties envVars networkInfo m = Except.ok m') :
    Extends m m' := by
  unfold ruleWebSitesFunc at h
  obtain ⟨sfid, _, h⟩ := bind_pym_ok h
  obtain ⟨m1, h1, h⟩ := bind_pym_ok h
  obtain ⟨m2, h2, h⟩ := bind_pym_ok h
  obtain ⟨m3, h3, h⟩ := bind_pym_ok h
  exact (((condStep_extends (fun _ _ hx => addConf_extends hx) h1).trans
    (fnSettingsBlock_extends h2)).trans
    (condStep_extends (fun _ _ hx => fnVnetIntegration_extends hx) h3)).trans
    (condStep_extends (fun _ _ hx => fnPrivateEndpoints_extends hx) h)

theorem webConnStringRules_extends {resources : List Resource} {rid value : String}
    {m m' : Deps} (h : webConnStringRules resources rid value m = Except.ok m') :
    Extends m m' := by
  unfold webConnStringRules at h
  obtain ⟨m1, h1, h⟩ := bind_pym_ok h
  obtain ⟨m2, h2, h⟩ := bind_pym_ok h
  obtain ⟨m3, h3, h⟩ := bind_pym_ok h
  obtain ⟨m4, h4, h⟩ := bind_pym_ok h
  obtain ⟨m5, h5, h⟩ := bind_pym_ok h
  obtain ⟨m6, h6, h⟩ := bind_pym_ok h
  obtain ⟨m7, h7, h⟩ := bind_pym_ok h
  have s : ∀ {c : Bool} {tys : List String} {cf : Bool} {ma mb : Deps},
      condStep c (addNameInValue resources rid tys value cf) ma = Except.ok mb →
      Extends ma mb :=
    fun hh => condStep_extends (fun _ _ hx => addNameInValue_extends hx) hh
  exact ((((((s h1).trans (s h2)).trans (s h3)).trans (s h4)).trans (s h5)).trans
    ((s h6).trans (s h7))).trans (s h)

theorem webKvSettingRules_extends {resources : List Resource} {rid value : String}
    {m m' : Deps} (h : webKvSettingRules resources rid value m = Except.ok m') :
    Extends m m' := by
  unfold webKvSettingRules at h
  obtain ⟨m1, h1, h⟩ := bind_pym_ok h
  obtain ⟨m2, h2, h⟩ := bind_pym_ok h
  have s : ∀ {c : Bool} {tys : List String} {cf : Bool} {ma mb : Deps},
      condStep c (addNameInValue resources rid tys value cf) ma = Except.ok mb →
      Extends ma mb :=
    fun hh => condStep_extends (fun _ _ hx => addNameInValue_extends hx) hh
  exact ((s h1).trans (s h2)).trans (s h)

theorem webEnvBlock_extends {resources : List Resource} {rid : String}
    {envVars : JValue} {m m' : Deps}
    (h : webEnvBlock resources rid envVars m = Except.ok m') : Extends m m' := by
  unfold webEnvBlock at h
  split at h
  · obtain ⟨appSettings, _, h⟩ := bind_pym_ok h
    obtain ⟨items, _, h⟩ := bind_pym_ok h
    obtain ⟨m1, h1, h⟩ := bind_pym_ok h
    have e1 : Extends m m1 := by
      refine foldlM_extends _ _ _ _ ?_ h1
      intro ma kv _ mb hstep
      split at hstep
      · split at hstep
        · exact addNameInValue_extends hstep
        · cases pure_ok hstep; exact Extends.refl
      · cases pure_ok hstep; exact Extends.refl
    obtain ⟨connStrings, _, h⟩ := bind_pym_ok h
    obtain ⟨citems, _, h⟩ := bind_pym_ok h
    refine e1.trans ?_
    refine foldlM_extends _ _ _ _ ?_ h
    intro ma kv _ mb hstep
    split at hstep
    all_goals first
      | exact webConnStringRules_extends hstep
      | (cases pure_ok hstep; exact Extends.refl)
  · cases pure_ok h; exact Extends.refl

theorem webKvBlock_extends {resources : List Resource} {rid : String}
    {envVars : JValue} {m m' : Deps}
    (h : webKvBlock resources rid envVars m = Except.ok m') : Extends m m' := by
  unfold webKvBlock at h
  split at h
  · obtain ⟨appSettings, _, h⟩ := bind_pym_ok h
    obtain ⟨items, _, h⟩ := bind_pym_ok h
    refine foldlM_extends _ _ _ _ ?_ h
    intro ma kv _ mb hstep
    split at hstep
    all_goals first
      | exact webKvSettingRules_extends hstep
      | (cases pure_ok hstep; exact Extends.refl)
  · cases pure_ok h; exact Extends.refl

theorem siteConfigInsights_extends {resources : List Resource} {rid : String}
    {properties : JValue} {m m' : Deps}
    (h : siteConfigInsights resources rid properties m = Except.ok m') :
    Extends m m' := by
  unfold siteConfigInsights at h
  split at h
  · obtain ⟨b, _, h⟩ := bind_pym_ok h
    split at h
    · obtain ⟨sc0, _, h⟩ := bind_pym_ok h
      split at h
      · obtain ⟨siteConfig, _, h⟩ := bind_pym_ok h
        obtain ⟨appSettings, _, h⟩ := bind_pym_ok h
        split at h
        · split at h
          · refine foldlM_extends _ _ _ _ ?_ h
            intro ma setting _ mb hstep
            split at hstep
            · split at hstep
              · obtain ⟨connString, _, hstep⟩ := bind_pym_ok hstep
                refine foldlM_extends _ _ _ _ ?_ hstep
                intro mc ins _ md hstep2
                split at hstep2
                · split at hstep2
                  · split at hstep2
                    · obtain ⟨b2, _, hstep2⟩ := bind_pym_ok hstep2
                      split at hstep2
                      · split at hstep2
                        · exact addConf_extends hstep2
                        · simp at hstep2
                      · cases pure_ok hstep2; exact Extends.refl
                    · cases pure_ok hstep2; exact Extends.refl
                  · cases pure_ok hstep2; exact Extends.refl
                · cases pure_ok hstep2; exact Extends.refl
              · cases pure_ok hstep; exact Extends.refl
            · cases pure_ok hstep; exact Extends.refl
          · cases pure_ok h; exact Extends.refl
        · cases pure_ok h; exact Extends.refl
      · cases pure_ok h; exact Extends.refl
    · cases pure_ok h; exact Extends.refl
  · cases pure_ok h; exact Extends.refl

theorem ruleWebSitesRegular_extends {resources : List Resource} {rid : String}
    {properties envVars : JValue} {m m' : Deps}
    (h : ruleWebSitesRegular resources rid properties envVars m = Except.ok m') :
    Extends m m' := by
  unfold ruleWebSitesRegular at h
  obtain ⟨sfid, _, h⟩ := bind_pym_ok h
  obtain ⟨m1, h1, h⟩ := bind_pym_ok h
  obtain ⟨m2, h2, h⟩ := bind_pym_ok h
  obtain ⟨m3, h3, h⟩ := bind_pym_ok h
  exact (((condStep_extends (fun _ _ hx => addConf_extends hx) h1).trans
    (webEnvBlock_extends h2)).trans (webKvBlock_extends h3)).trans
    (siteConfigInsights_extends h)

theorem ruleInsights_extends {resources : List Resource} {rid : String}
    {specificConfig : JValue} {m m' : Deps}
    (h : ruleInsights resources rid specificConfig m = Except.ok m') : Extends m m' := by
  unfold ruleInsights at h
  split at h
  · exact addNameInValue_extends h
  · cases pure_ok h; exact Extends.refl

theorem ruleApim_extends {resources : List Resource} {rid : String}
    {specificConfig : JValue} {m m' : Deps}
    (h : ruleApim resources rid specificConfig m = Except.ok m') : Extends m m' := by
  unfold ruleApim at h
  obtain ⟨m1, h1, h⟩ := bind_pym_ok h
  refine (addAllOfType_extends h1).trans ?_
  split at h
  · exact addNameInValue_extends h
  · cases pure_ok h; exact Extends.refl

theorem ruleKeyVault_extends {specificConfig : JValue} {m m' : Deps}
    (h : ruleKeyVault specificConfig m = Except.ok m') : Extends m m' := by
  unfold ruleKeyVault at h
  split at h
  · obtain ⟨ap, _, h⟩ := bind_pym_ok h
    cases pure_ok h; exact Extends.refl
  · cases pure_ok h; exact Extends.refl

theorem ruleVM_extends {resources : List Resource} {rid : String}
    {properties specificConfig : JValue} {m m' : Deps}
    (h : ruleVM resources rid properties specificConfig m = Except.ok m') :
    Extends m m' := by
  unfold ruleVM at h
  obtain ⟨m1, h1, h⟩ := bind_pym_ok h
  refine (condStep_extends (fun _ _ hx => addNameInValue_extends hx) h1).trans ?_
  split at h
  · obtain ⟨b, _, h⟩ := bind_pym_ok h
    split at h
    · obtain ⟨np, _, h⟩ := bind_pym_ok h
      obtain ⟨nicsV, _, h⟩ := bind_pym_ok h
      try dsimp only at h
      refine foldlM_extends _ _ _ _ ?_ h
      intro ma nic _ mb hstep
      split at hstep
      · split at hstep
        · obtain ⟨nid, _, hstep⟩ := bind_pym_ok hstep
          exact addConf_extends hstep
        · cases pure_ok hstep; exact Extends.refl
      · cases pure_ok hstep; exact Extends.refl
    · cases pure_ok h; exact Extends.refl
  · cases pure_ok h; exact Extends.refl

theorem vmssSubnetStep_extends {resources : List Resource} {rid : String}
    {subnet : JValue} {m m' : Deps}
    (h : vmssSubnetStep resources rid subnet m = Except.ok m') : Extends m m' := by
  unfold vmssSubnetStep at h
  split at h
  · split at h
    · obtain ⟨sid, _, h⟩ := bind_pym_ok h
      exact addVnetParents_extends h
    · cases pure_ok h; exact Extends.refl
  · cases pure_ok h; exact Extends.refl

theorem vmssIpConfig_extends {resources : List Resource} {rid : String}
    {ipConfig : JValue} {m m' : Deps}
    (h : vmssIpConfig resources rid ipConfig m = Except.ok m') : Extends m m' := by
  unfold vmssIpConfig at h
  split at h
  · obtain ⟨subnet, _, h⟩ := bind_pym_ok h
    obtain ⟨m1, h1, h⟩ := bind_pym_ok h
    obtain ⟨poolsV, _, h⟩ := bind_pym_ok h
    try dsimp only at h
    obtain ⟨m2, h2, h⟩ := bind_pym_ok h
    obtain ⟨natV, _, h⟩ := bind_pym_ok h
    try dsimp only at h
    have e2 : Extends m1 m2 := by
      refine foldlM_extends _ _ _ _ ?_ h2
      intro ma pool _ mb hstep
      exact lbPoolAdd_extends hstep
    refine ((vmssSubnetStep_extends h1).trans e2).trans ?_
    refine foldlM_extends _ _ _ _ ?_ h
    intro ma pool _ mb hstep
    exact lbPoolAdd_extends hstep
  · cases pure_ok h; exact Extends.refl

theorem vmssProfileBlock_extends {resources : List Resource} {rid : String}
    {properties : JValue} {m m' : Deps}
    (h : vmssProfileBlock resources rid properties m = Except.ok m') : Extends m m' := by
  unfold vmssProfileBlock at h
  split at h
  · obtain ⟨b, _, h⟩ := bind_pym_ok h
    split at h
    · obtain ⟨vmProfile, _, h⟩ := bind_pym_ok h
      obtain ⟨networkProfile, _, h⟩ := bind_pym_ok h
      obtain ⟨nicConfigsV, _, h⟩ := bind_pym_ok h
      try dsimp only at h
      refine foldlM_extends _ _ _ _ ?_ h
      intro ma nc _ mb hstep
      split at hstep
      · obtain ⟨ipConfigsV, _, hstep⟩ := bind_pym_ok hstep
        try dsimp only at hstep
        refine foldlM_extends _ _ _ _ ?_ hstep
        intro mc ic _ md hstep2
        exact vmssIpConfig_extends hstep2
      · cases pure_ok hstep; exact Extends.refl
    · cases pure_ok h; exact Extends.refl
  · cases pure_ok h; exact Extends.refl

theorem ruleVMSS_extends {resources : List Resource} {rid : String}
    {properties specificConfig networkInfo : JValue} {m m' : Deps}
    (h : ruleVMSS resources rid properties specificConfig networkInfo m = Except.ok m') :
    Extends m m' := by
  unfold ruleVMSS at h
  obtain ⟨m1, h1, h⟩ := bind_pym_ok h
  obtain ⟨m2, h2, h⟩ := bind_pym_ok h
  refine ((condStep_extends (fun _ _ hx => addNameInValue_extends hx) h1).trans
    (vmssProfileBlock_extends h2)).trans ?_
  split at h
  · obtain ⟨albV, _, h⟩ := bind_pym_ok h
    obtain ⟨items, _, h⟩ := bind_pym_ok h
    refine foldlM_extends _ _ _ _ ?_ h
    intro ma lbName _ mb hstep
    refine foldlM_extends _ _ _ _ ?_ hstep
    intro mc lb _ md hstep2
    split at hstep2
    · split at hstep2
      · exact addConf_extends hstep2
      · simp at hstep2
    · cases pure_ok hstep2; exact Extends.refl
  · cases pure_ok h; exact Extends.refl

theorem ruleStorage_extends {resources : List Resource} {rid : String}
    {specificConfig : JValue} {m m' : Deps}
    (h : ruleStorage resources rid specificConfig m = Except.ok m') : Extends m m' := by
  unfold ruleStorage at h
  split at h
  · obtain ⟨b, _, h⟩ := bind_pym_ok h
    split at h
    · obtain ⟨networkRules, _, h⟩ := bind_pym_ok h
      obtain ⟨vnetRulesV, _, h⟩ := bind_pym_ok h
      try dsimp only at h
      refine foldlM_extends _ _ _ _ ?_ h
      intro ma vr _ mb hstep
      split at hstep
      · split at hstep
        · obtain ⟨sid, _, hstep⟩ := bind_pym_ok hstep
          exact addVnetParents_extends hstep
        · cases pure_ok hstep; exact Extends.refl
      · cases pure_ok hstep; exact Extends.refl
    · cases pure_ok h; exact Extends.refl
  · cases pure_ok h; exact Extends.refl

theorem typeRules_extends {az : String → Option JValue} {subId : String}
    {resources : List Resource} {r : Resource} {rid rty : String}
    {properties envVars networkInfo specificConfig : JValue} {m m' : Deps}
    (h : typeRules az subId resources r rid rty properties envVars networkInfo
      specificConfig m = Except.ok m') : Extends m m' := by
  unfold typeRules at h
  split at h
  · exact ruleContainerApps_extends h
  · split at h
    · split at h
      · exact ruleWebSitesFunc_extends h
      · exact ruleWebSitesRegular_extends h
    · split at h
      · exact ruleInsights_extends h
      · split at h
        · exact ruleApim_extends h
        · split at h
          · exact ruleKeyVault_extends h
          · split at h
            · exact ruleVM_extends h
            · split at h
              · exact ruleVMSS_extends h
              · split at h
                · exact ruleStorage_extends h
                · cases pure_ok h; exact Extends.refl

theorem envScansBlock_extends {resources : List Resource} {rid : String}
    {envVars : JValue} {m m' : Deps}
    (h : envScansBlock resources rid envVars m = Except.ok m') : Extends m m' := by
  unfold envScansBlock at h
  split at h
  · obtain ⟨m1, h1, h⟩ := bind_pym_ok h
    exact (scanEnvMap_extends h1).trans (scanEnvMap_extends h)
  · cases pure_ok h; exact Extends.refl

theorem processResource_extends {az : String → Option JValue} {subId : String}
    {resources : List Resource} {m : Deps} {r : Resource} {m' : Deps}
    (h : processResource az subId resources m r = Except.ok m') : Extends m m' := by
  unfold processResource at h
  split at h
  · cases pure_ok h; exact Extends.refl
  · split at h
    · cases pure_ok h; exact Extends.refl
    · split at h
      · cases pure_ok h; exact Extends.refl
      · split at h
        · cases pure_ok h; exact Extends.refl
        · try dsimp only at h
          obtain ⟨m1, h1, h⟩ := bind_pym_ok h
          obtain ⟨m2, h2, h⟩ := bind_pym_ok h
          obtain ⟨m3, h3, h⟩ := bind_pym_ok h
          exact (((idContainmentScan_extends h1).trans
            (envScansBlock_extends h2)).trans
            (condStep_extends (fun _ _ hx => scanNetworkInfo_extends hx) h3)).trans
            (typeRules_extends h)

theorem implicitRules_extends {resources : List Resource} {m m' : Deps}
    (h : implicitRules resources m = Except.ok m') : Extends m m' := by
  unfold implicitRules at h
  refine foldlM_extends _ _ _ _ ?_ h
  intro ma r _ mb hstep
  split at hstep
  · split at hstep
    · obtain ⟨mc, hc, hstep⟩ := bind_pym_ok hstep
      exact (condStep_extends (fun _ _ hx => addAllOfType_extends hx) hc).trans
        (condStep_extends (fun _ _ hx => addAllOfType_extends hx) hstep)
    · cases pure_ok hstep; exact Extends.refl
  · cases pure_ok hstep; exact Extends.refl

/-- The whole run only grows the maps created at initialization and never
changes their key set. -/
theorem get_resource_dependencies_extends {az : String → Option JValue}
    {subId : String} {resources : List Resource} {m' : Deps}
    (h : get_resource_dependencies az subId resources = Except.ok m') :
    Extends (initDeps resources) m' := by
  unfold get_resource_dependencies at h
  try dsimp only at h
  obtain ⟨m1, h1, h⟩ := bind_pym_ok h
  refine Extends.trans ?_ (implicitRules_extends h)
  refine foldlM_extends _ _ _ _ ?_ h1
  intro ma r _ mb hstep
  exact processResource_extends hstep

/-- External lookup function that models every point-to-point call failing
(or returning nothing): the engine then simply adds no registry edge. -/
def azNone : String → Option JValue := fun _ => none

/-- Confirmed set of one resource in a finished run (`[]` when the run
raised). -/
def runConf (az : String → Option JValue) (subId : String)
    (resources : List Resource) (k : String) : List JValue :=
  match get_resource_dependencies az subId resources with
  | Except.ok m => lookupD m.confirmed k
  | Except.error _ => []

/-- Potential set of one resource in a finished run (`[]` when the run
raised). -/
def runPot (az : String → Option JValue) (subId : String)
    (resources : List Resource) (k : String) : List JValue :=
  match get_resource_dependencies az subId resources with
  | Except.ok m => lookupD m.potential k
  | Except.error _ => []

theorem foldlM_pres {α : Type} (body : Deps → α → PyM Deps) (P : Deps → Prop) :
    ∀ (xs : List α) (m m' : Deps),
      (∀ ma x, x ∈ xs → P ma → ∀ mb, body ma x = Except.ok mb → P mb) →
      xs.foldlM body m = Except.ok m' → P m → P m'
  | [], m, m', _, h, hP => by
      cases foldlM_ok_nil.mp h
      exact hP
  | x :: xs, m, m', hb, h, hP => by
      obtain ⟨m1, h1, h2⟩ := foldlM_ok_cons.mp h
      exact foldlM_pres body P xs m1 m'
        (fun ma y hy => hb ma y (List.mem_cons_of_mem x hy))
        h2 (hb m x (List.mem_cons_self x xs) hP m1 h1)

theorem hasKey_iff_mem {m : DepMap} {k : String} :
    hasKey m k = true ↔ k ∈ keysOf m := by
  induction m with
  | nil => simp [hasKey, keysOf]
  | cons p t ih =>
    rw [hasKey_cons]
    simp only [keysOf, List.map_cons, List.mem_cons, Bool.or_eq_true, beq_iff_eq]
    rw [ih]
    unfold keysOf
    constructor
    · rintro (h | h)
      · exact Or.inl h.symm
      · exact Or.inr h
    · rintro (h | h)
      · exact Or.inl h.symm
      · exact Or.inr h

theorem keysOf_map_keyfix {m : DepMap} {f : String × List JValue → String × List JValue}
    (hf : ∀ p, (f p).1 = p.1) : keysOf (m.map f) = keysOf m := by
  induction m with
  | nil => rfl
  | cons p t ih =>
    simp only [keysOf, List.map_cons] at ih ⊢
    rw [hf, ih]

theorem keysOf_setEntry {m : DepMap} {k : String} {v : List JValue} :
    keysOf (setEntry m k v) = if hasKey m k then keysOf m else keysOf m ++ [k] := by
  unfold setEntry
  split
  next h =>
    exact keysOf_map_keyfix (fun p => by by_cases hp : p.1 == k <;> simp [hp])
  next h =>
    simp [keysOf]

theorem lookupD_setEntry_eq {m : DepMap} {k : String} {v : List JValue} :
    lookupD (setEntry m k v) k = v := by
  unfold setEntry
  split
  next h =>
    induction m with
    | nil => simp [hasKey] at h
    | cons p t ih =>
      simp only [List.map_cons]
      by_cases hp : p.1 == k
      · rw [lookupD_cons]
        simp [hp]
      · rw [hasKey_cons] at h
        simp only [hp, Bool.false_or] at h
        rw [lookupD_cons]
        simp only [hp, Bool.false_eq_true, if_false]
        exact ih h
  next h =>
    induction m with
    | nil => simp [lookupD, List.find?]
    | cons p t ih =>
      rw [hasKey_cons] at h
      simp only [Bool.or_eq_true, not_or] at h
      rw [List.cons_append, lookupD_cons]
      simp only [Bool.not_eq_true] at h
      rw [h.1]
      simp only [Bool.false_eq_true, if_false]
      exact ih (by simpa using h.2)

theorem lookupD_setEntry_ne {m : DepMap} {k k2 : String} {v : List JValue}
    (hne : k2 ≠ k) : lookupD (setEntry m k v) k2 = lookupD m k2 := by
  unfold setEntry
  split
  next h =>
    clear h
    induction m with
    | nil => rfl
    | cons p t ih =>
      simp only [List.map_cons]
      rw [lookupD_cons, lookupD_cons]
      by_cases hp : p.1 == k
      · have hpk : p.1 = k := eq_of_beq hp
        have h2 : (p.1 == k2) = false := by
          simp only [beq_eq_false_iff_ne, hpk]
          exact fun hc => hne hc.symm
        simp only [hp, if_true, h2, Bool.false_eq_true, if_false]
        exact ih
      · simp only [hp, Bool.false_eq_true, if_false]
        by_cases h2 : p.1 == k2
        · simp [h2]
        · simp only [h2, Bool.false_eq_true, if_false]
          exact ih
  next h =>
    clear h
    induction m with
    | nil =>
      rw [List.nil_append, lookupD_cons]
      have : (k == k2) = false := by
        simp only [beq_eq_false_iff_ne]
        exact fun hc => hne hc.symm
      simp [this, lookupD, List.find?]
    | cons p t ih =>
      rw [List.cons_append, lookupD_cons, lookupD_cons]
      by_cases h2 : p.1 == k2
      · simp [h2]
      · simp only [h2, Bool.false_eq_true, if_false]
        exact ih

theorem strNE {s : String} : (!s.isEmpty) = true ↔ s ≠ "" := by
  constructor
  · intro h hc
    subst hc
    exact absurd h (by decide)
  · intro h
    cases hi : s.isEmpty
    · rfl
    · exact absurd ((String.isEmpty_iff s).mp hi) h

theorem hasKey_eq_of_keys_eq {m1 m2 : DepMap} (h : keysOf m1 = keysOf m2)
    (k : String) : hasKey m1 k = hasKey m2 k := by
  rw [Bool.eq_iff_iff, hasKey_iff_mem, hasKey_iff_mem, h]

theorem initStep_spec (m0 : Deps) (r : Resource)
    (hnd : (keysOf m0.confirmed).Nodup)
    (hkp : keysOf m0.potential = keysOf m0.confirmed)
    (hvc : ∀ k, lookupD m0.confirmed k = [])
    (hvp : ∀ k, lookupD m0.potential k = []) :
    (∀ s, s ∈ keysOf (initStep m0 r).confirmed ↔
        s ∈ keysOf m0.confirmed ∨ (r.id = some s ∧ s ≠ "")) ∧
    (keysOf (initStep m0 r).confirmed).Nodup ∧
    keysOf (initStep m0 r).potential = keysOf (initStep m0 r).confirmed ∧
    (∀ k, lookupD (initStep m0 r).confirmed k = []) ∧
    (∀ k, lookupD (initStep m0 r).potential k = []) := by
  unfold initStep
  split
  next rid heq =>
    split
    next hne =>
      have hrid : rid ≠ "" := strNE.mp hne
      refine ⟨?_, ?_, ?_, ?_, ?_⟩
      · intro s
        simp only
        rw [keysOf_setEntry, heq, Option.some_inj]
        by_cases hk : hasKey m0.confirmed rid
        · rw [if_pos hk]
          constructor
          · exact Or.inl
          · rintro (h | ⟨h1, _⟩)
            · exact h
            · subst h1
              exact hasKey_iff_mem.mp hk
        · rw [if_neg hk]
          rw [List.mem_append, List.mem_singleton]
          constructor
          · rintro (h | h)
            · exact Or.inl h
            · exact Or.inr ⟨h.symm, h ▸ hrid⟩
          · rintro (h | ⟨h1, _⟩)
            · exact Or.inl h
            · exact Or.inr h1.symm
      · simp only
        rw [keysOf_setEntry]
        by_cases hk : hasKey m0.confirmed rid
        · rw [if_pos hk]
          exact hnd
        · rw [if_neg hk]
          rw [List.nodup_append]
          refine ⟨hnd, List.nodup_singleton rid, ?_⟩
          intro a ha hb
          rw [List.mem_singleton] at hb
          subst hb
          exact hk (hasKey_iff_mem.mpr ha)
      · simp only
        rw [keysOf_setEntry, keysOf_setEntry, hkp,
          hasKey_eq_of_keys_eq hkp rid]
      · intro k
        simp only
        by_cases hk : k = rid
        · subst hk
          exact lookupD_setEntry_eq
        · rw [lookupD_setEntry_ne hk]
          exact hvc k
      · intro k
        simp only
        by_cases hk : k = rid
        · subst hk
          exact lookupD_setEntry_eq
        · rw [lookupD_setEntry_ne hk]
          exact hvp k
    next hne =>
      have hrid : ¬ rid ≠ "" := fun hc => hne (strNE.mpr hc)
      refine ⟨?_, hnd, hkp, hvc, hvp⟩
      intro s
      rw [heq, Option.some_inj]
      constructor
      · exact Or.inl
      · rintro (h | ⟨h1, h2⟩)
        · exact h
        · subst h1
          exact absurd h2 hrid
  next heq =>
    refine ⟨?_, hnd, hkp, hvc, hvp⟩
    intro s
    rw [heq]
    simp

theorem initDeps_go : ∀ (rs : List Resource) (m0 : Deps),
    (keysOf m0.confirmed).Nodup →
    keysOf m0.potential = keysOf m0.confirmed →
    (∀ k, lookupD m0.confirmed k = []) →
    (∀ k, lookupD m0.potential k = []) →
    (∀ s, s ∈ keysOf (rs.foldl initStep m0).confirmed ↔
        s ∈ keysOf m0.confirmed ∨ ∃ r, r ∈ rs ∧ r.id = some s ∧ s ≠ "") ∧
    (keysOf (rs.foldl initStep m0).confirmed).Nodup ∧
    keysOf (rs.foldl initStep m0).potential = keysOf (rs.foldl initStep m0).confirmed ∧
    (∀ k, lookupD (rs.foldl initStep m0).confirmed k = []) ∧
    (∀ k, lookupD (rs.foldl initStep m0).potential k = [])
  | [], m0, hnd, hkp, hvc, hvp => by
      refine ⟨?_, hnd, hkp, hvc, hvp⟩
      intro s
      simp
  | r :: rs, m0, hnd, hkp, hvc, hvp => by
      rw [List.foldl_cons]
      obtain ⟨hmem1, hnd1, hkp1, hvc1, hvp1⟩ := initStep_spec m0 r hnd hkp hvc hvp
      obtain ⟨hmem2, hnd2, hkp2, hvc2, hvp2⟩ :=
        initDeps_go rs (initStep m0 r) hnd1 hkp1 hvc1 hvp1
      refine ⟨?_, hnd2, hkp2, hvc2, hvp2⟩
      intro s
      rw [hmem2 s, hmem1 s]
      constructor
      · rintro ((h | h) | ⟨r', hr', hp⟩)
        · exact Or.inl h
        · exact Or.inr ⟨r, List.mem_cons_self r rs, h⟩
        · exact Or.inr ⟨r', List.mem_cons_of_mem r hr', hp⟩
      · rintro (h | ⟨r', hr', hp⟩)
        · exact Or.inl (Or.inl h)
        · rcases List.mem_cons.mp hr' with h1 | h1
          · subst h1
            exact Or.inl (Or.inr hp)
          · exact Or.inr ⟨r', h1, hp⟩

/-- Key-set and initial-value description of the initialization loop. -/
theorem initDeps_spec (resources : List Resource) :
    (∀ s, s ∈ keysOf (initDeps resources).confirmed ↔
        ∃ r, r ∈ resources ∧ r.id = some s ∧ s ≠ "") ∧
    (keysOf (initDeps resources).confirmed).Nodup ∧
    keysOf (initDeps resources).potential = keysOf (initDeps resources).confirmed ∧
    (∀ k, lookupD (initDeps resources).confirmed k = []) ∧
    (∀ k, lookupD (initDeps resources).potential k = []) := by
  unfold initDeps
  obtain ⟨h1, h2, h3, h4, h5⟩ := initDeps_go resources ⟨[], []⟩
    List.nodup_nil rfl (fun _ => rfl) (fun _ => rfl)
  refine ⟨?_, h2, h3, h4, h5⟩
  intro s
  rw [h1 s]
  simp [keysOf]

/-- C1: for every run that returns, the confirmed and potential mappings
have exactly one key per distinct non-null, non-empty resource id (one key
per resource once ids are unique), and these key sets are exactly the ones
created at initialization, whose sets all start empty.  (The original claim
said "non-null id"; the code also requires the id to be non-empty, see
`c1_counterexample`.) -/
theorem c1_key_invariant {az : String → Option JValue} {subId : String}
    {resources : List Resource} {m' : Deps}
    (hok : get_resource_dependencies az subId resources = Except.ok m') :
    (∀ s, s ∈ keysOf m'.confirmed ↔ ∃ r, r ∈ resources ∧ r.id = some s ∧ s ≠ "") ∧
    (∀ s, s ∈ keysOf m'.potential ↔ ∃ r, r ∈ resources ∧ r.id = some s ∧ s ≠ "") ∧
    (keysOf m'.confirmed).Nodup ∧ (keysOf m'.potential).Nodup ∧
    keysOf m'.confirmed = keysOf (initDeps resources).confirmed ∧
    keysOf m'.potential = keysOf (initDeps resources).potential ∧
    (∀ k, lookupD (initDeps resources).confirmed k = []) ∧
    (∀ k, lookupD (initDeps resources).potential k = []) := by
  have hext := get_resource_dependencies_extends hok
  obtain ⟨h1, h2, h3, h4, h5⟩ := initDeps_spec resources
  refine ⟨?_, ?_, ?_, ?_, hext.keysC, hext.keysP, h4, h5⟩
  · intro s
    rw [hext.keysC]
    exact h1 s
  · intro s
    rw [hext.keysP, h3]
    exact h1 s
  · rw [hext.keysC]
    exact h2
  · rw [hext.keysP, h3]
    exact h2

def c1wRes : Resource := ⟨some "w1", some "wname", some "foo/bar", none, none, none, none, none⟩

def c1wDeps : Deps := ⟨[("w1", [])], [("w1", [])]⟩

/-- Witness for `c1_key_invariant` at a one-resource catalog. -/
theorem c1_key_invariant_witness :
    (∀ s, s ∈ keysOf c1wDeps.confirmed ↔ ∃ r, r ∈ [c1wRes] ∧ r.id = some s ∧ s ≠ "") ∧
    (∀ s, s ∈ keysOf c1wDeps.potential ↔ ∃ r, r ∈ [c1wRes] ∧ r.id = some s ∧ s ≠ "") ∧
    (keysOf c1wDeps.confirmed).Nodup ∧ (keysOf c1wDeps.potential).Nodup ∧
    keysOf c1wDeps.confirmed = keysOf (initDeps [c1wRes]).confirmed ∧
    keysOf c1wDeps.potential = keysOf (initDeps [c1wRes]).potential ∧
    (∀ k, lookupD (initDeps [c1wRes]).confirmed k = []) ∧
    (∀ k, lookupD (initDeps [c1wRes]).potential k = []) :=
  c1_key_invariant
    (show get_resource_dependencies azNone "sub" [c1wRes] = Except.ok c1wDeps from rfl)

def c1xRes : Resource := ⟨some "", some "noid", some "foo/bar", none, none, none, none, none⟩

/-- C1 counterexample: a resource whose `id` is non-null but empty gets no
key at all — the code tests Python truthiness, not nullness, so the claim
"one key per resource with a non-null id" fails on this catalog. -/
theorem c1_counterexample :
    c1xRes.id ≠ none ∧
    get_resource_dependencies azNone "sub" [c1xRes] = Except.ok ⟨[], []⟩ :=
  ⟨by simp [c1xRes], by rfl⟩

def c2Res : Resource := ⟨some "x-id", some "mysite", some "foo/bar", none, none,
  some (JValue.obj [("appSettings", JValue.obj
    [("URL", JValue.str "https://mysite.example.com")])]), none, none⟩

/-- C2 counterexample: a resource whose own name appears inside one of its
own app-setting values adds ITSELF to its potential set — the
name-matching scan has no `A ≠ B` guard, so a self-loop is produced. -/
theorem c2_counterexample :
    JValue.str "x-id" ∈ runPot azNone "sub" [c2Res] "x-id" := by decide

/-- C2 (amended): the global ID-containment rule of Phase 1 never produces
a self-loop — its filter explicitly requires `B.id != A.id`.  (The
potential-dependency name scans and the type-specific rules have no such
guard and can produce self-loops, see `c2_counterexample`.) -/
theorem c2_amended_no_self_loop {resources : List Resource} {rid blob : String}
    {m m' : Deps} (h : idContainmentScan resources rid blob m = Except.ok m')
    (hself : JValue.str rid ∉ lookupD m.confirmed rid) :
    JValue.str rid ∉ lookupD m'.confirmed rid := by
  unfold idContainmentScan at h
  refine foldlM_pres _ (fun md => JValue.str rid ∉ lookupD md.confirmed rid)
    _ _ _ ?_ h hself
  intro ma dep _ hP mb hstep
  split at hstep
  next depId heq =>
    split at hstep
    next hc =>
      intro hmem
      rw [addConf_conf_iff hstep rid (JValue.str rid)] at hmem
      rcases hmem with hmem | ⟨_, hx⟩
      · exact hP hmem
      · simp only [Bool.and_eq_true, bne_iff_ne] at hc
        exact hc.1.2 (JValue.str.injEq _ _ ▸ congrArg id hx).symm
    next => cases pure_ok hstep; exact hP
  next => cases pure_ok hstep; exact hP

theorem strEmptyFalse {s : String} (h : s ≠ "") : s.isEmpty = false := by
  cases hi : s.isEmpty
  · rfl
  · exact absurd ((String.isEmpty_iff s).mp hi) h

/-- Witness step inside the ID-containment scan: a candidate that satisfies
the filter really is added. -/
theorem idContainmentScan_adds {resources : List Resource} {rid blob : String}
    {m m' : Deps} {dep : Resource} {b : String}
    (hdep : dep ∈ resources) (hid : dep.id = some b) (hb : b ≠ "")
    (hne : b ≠ rid) (hsub : hasSub b blob = true)
    (h : idContainmentScan resources rid blob m = Except.ok m') :
    JValue.str b ∈ lookupD m'.confirmed rid := by
  obtain ⟨l1, l2, heq⟩ := List.append_of_mem hdep
  subst heq
  unfold idContainmentScan at h
  obtain ⟨m1, hA, hB⟩ := foldlM_ok_append _ l1 (dep :: l2) m m' h
  obtain ⟨m2, hx, hy⟩ := foldlM_ok_cons.mp hB
  rw [hid] at hx
  dsimp only at hx
  have hcond : (!b.isEmpty && b != rid && hasSub b blob) = true := by
    simp only [Bool.and_eq_true, bne_iff_ne]
    exact ⟨⟨strNE.mpr hb, hne⟩, hsub⟩
  rw [if_pos hcond] at hx
  have hmem := addConf_mem hx
  have hext : Extends m2 m' := by
    refine foldlM_extends _ _ _ _ ?_ hy
    intro ma d _ mb hstep
    split at hstep
    all_goals first
      | exact addConf_extends hstep
      | (cases pure_ok hstep; exact Extends.refl)
      | (split at hstep
         all_goals first
           | exact addConf_extends hstep
           | (cases pure_ok hstep; exact Extends.refl))
  exact hext.memC _ _ hmem

/-- C3: if resource `B`'s non-empty id occurs verbatim in the serialized
combined blob of a distinct, analysable resource `A` (non-empty id and
type), then after a successful run `B.id` is in `A`'s confirmed set. -/
theorem c3_substring_confirmed {az : String → Option JValue} {subId : String}
    {resources : List Resource} {A B : Resource} {a b t : String} {m' : Deps}
    (hA : A ∈ resources) (hAid : A.id = some a) (ha : a ≠ "")
    (hAty : A.type = some t) (ht : t ≠ "")
    (hB : B ∈ resources) (hBid : B.id = some b) (hb : b ≠ "") (hne : b ≠ a)
    (hsub : hasSub b (dumps (jBlob A)) = true)
    (hok : get_resource_dependencies az subId resources = Except.ok m') :
    JValue.str b ∈ lookupD m'.confirmed a := by
  unfold get_resource_dependencies at hok
  try dsimp only at hok
  obtain ⟨mf, hfold, himp⟩ := bind_pym_ok hok
  obtain ⟨l1, l2, heq⟩ := List.append_of_mem hA
  subst heq
  obtain ⟨mA, hl1, hrest⟩ := foldlM_ok_append _ l1 (A :: l2) _ mf hfold
  obtain ⟨mB, hstepA, hl2⟩ := foldlM_ok_cons.mp hrest
  unfold processResource at hstepA
  rw [hAid] at hstepA
  dsimp only at hstepA
  rw [if_neg (by rw [strEmptyFalse ha]; exact Bool.false_ne_true)] at hstepA
  rw [hAty] at hstepA
  dsimp only at hstepA
  rw [if_neg (by rw [strEmptyFalse ht]; exact Bool.false_ne_true)] at hstepA
  obtain ⟨mC, hscan, hrest2⟩ := bind_pym_ok hstepA
  have hmem := idContainmentScan_adds hB hBid hb hne hsub hscan
  obtain ⟨mD, henv, hrest3⟩ := bind_pym_ok hrest2
  obtain ⟨mE, hnet, htyp⟩ := bind_pym_ok hrest3
  have e1 : Extends mC mB :=
    ((envScansBlock_extends henv).trans
      (condStep_extends (fun _ _ hx => scanNetworkInfo_extends hx) hnet)).trans
      (typeRules_extends htyp)
  have e2 : Extends mB mf := by
    refine foldlM_extends _ _ _ _ ?_ hl2
    intro ma r _ mb hstep
    exact processResource_extends hstep
  have e3 : Extends mf m' := implicitRules_extends himp
  exact e3.memC _ _ (e2.memC _ _ (e1.memC _ _ hmem))

def c2wDeps : Deps := ⟨[("x-id", [])], [("x-id", [])]⟩

/-- Witness for `c2_amended_no_self_loop` at a concrete scan. -/
theorem c2_amended_witness :
    JValue.str "x-id" ∉ lookupD c2wDeps.confirmed "x-id" :=
  c2_amended_no_self_loop
    (show idContainmentScan [c2Res] "x-id" "" c2wDeps = Except.ok c2wDeps from rfl)
    (by decide)

def c3wA : Resource := ⟨some "said", some "aname", some "web/app", none,
  some (JValue.obj [("ref", JValue.str "btid")]), none, none, none⟩

def c3wB : Resource := ⟨some "btid", some "bname", some "x/y", none, none, none, none, none⟩

def c3wDeps : Deps :=
  ⟨[("said", [JValue.str "btid"]), ("btid", [])], [("said", []), ("btid", [])]⟩

/-- Witness for `c3_substring_confirmed` at a two-resource catalog. -/
theorem c3_substring_confirmed_witness :
    JValue.str "btid" ∈ lookupD c3wDeps.confirmed "said" :=
  c3_substring_confirmed (show c3wA ∈ [c3wA, c3wB] by decide) rfl (by decide) rfl
    (by decide) (show c3wB ∈ [c3wA, c3wB] by decide) rfl (by decide) (by decide)
    (by decide)
    (show get_resource_dependencies azNone "s" [c3wA, c3wB] = Except.ok c3wDeps by decide)

theorem pym_pure_ok {β : Type} {b b' : β} (h : (pure b : PyM β) = Except.ok b') :
    b = b' := by
  simpa [pure, Except.pure] using h

/-- C7: a container app whose `properties.managedEnvironmentId` is the
(non-empty) id of some environment resource in the catalog gets that id in
its confirmed set after a successful run, with no other signal needed. -/
theorem c7_managed_environment {az : String → Option JValue} {subId : String}
    {resources : List Resource} {A : Resource} {kvs : List (String × JValue)}
    {a e : String} {m' : Deps}
    (hA : A ∈ resources) (hAid : A.id = some a) (ha : a ≠ "")
    (hAty : A.type = some "microsoft.app/containerapps")
    (hprops : A.properties = some (JValue.obj kvs))
    (hfind : jFind kvs "managedEnvironmentId" = some (JValue.str e)) (he : e ≠ "")
    (henv : ∃ E, E ∈ resources ∧ E.id = some e)
    (hok : get_resource_dependencies az subId resources = Except.ok m') :
    JValue.str e ∈ lookupD m'.confirmed a := by
  unfold get_resource_dependencies at hok
  try dsimp only at hok
  obtain ⟨mf, hfold, himp⟩ := bind_pym_ok hok
  obtain ⟨l1, l2, heq⟩ := List.append_of_mem hA
  subst heq
  obtain ⟨mA, hl1, hrest⟩ := foldlM_ok_append _ l1 (A :: l2) _ mf hfold
  obtain ⟨mB, hstepA, hl2⟩ := foldlM_ok_cons.mp hrest
  unfold processResource at hstepA
  rw [hAid] at hstepA
  dsimp only at hstepA
  rw [if_neg (by rw [strEmptyFalse ha]; exact Bool.false_ne_true)] at hstepA
  rw [hAty] at hstepA
  dsimp only at hstepA
  rw [if_neg (by decide)] at hstepA
  obtain ⟨mC, hscan, hrest2⟩ := bind_pym_ok hstepA
  obtain ⟨mD, henvs, hrest3⟩ := bind_pym_ok hrest2
  obtain ⟨mE, hnet, htyp⟩ := bind_pym_ok hrest3
  unfold typeRules at htyp
  rw [if_pos (by decide)] at htyp
  rw [hprops] at htyp
  simp only [Option.getD_some] at htyp
  unfold ruleContainerApps at htyp
  obtain ⟨mei, hmei, htyp⟩ := bind_pym_ok htyp
  rw [show jGet (JValue.obj kvs) "managedEnvironmentId" JValue.null =
    Except.ok (JValue.str e) by simp only [jGet]; rw [hfind]; rfl] at hmei
  cases hmei
  obtain ⟨m1, hcond, htyp⟩ := bind_pym_ok htyp
  rw [condStep_true (show (JValue.str e).truthy = true by
    simp only [JValue.truthy]; exact strNE.mpr he)] at hcond
  have hmem := addConf_mem hcond
  obtain ⟨config, hcfg, htyp⟩ := bind_pym_ok htyp
  obtain ⟨m2, hcr, htyp⟩ := bind_pym_ok htyp
  obtain ⟨template, htm, htyp⟩ := bind_pym_ok htyp
  have e1 : Extends m1 mB :=
    (caConfigRules_extends hcr).trans (caTemplateRules_extends htyp)
  have e2 : Extends mB mf := by
    refine foldlM_extends _ _ _ _ ?_ hl2
    intro ma r _ mb hstep
    exact processResource_extends hstep
  exact (implicitRules_extends himp).memC _ _ (e2.memC _ _ (e1.memC _ _ hmem))

def c7wEnv : Resource :=
  ⟨some "envid", some "env1", some "microsoft.app/managedenvironments", none,
   none, none, none, none⟩

def c7wCA : Resource :=
  ⟨some "caid", some "ca1", some "microsoft.app/containerapps", none,
   some (JValue.obj [("managedEnvironmentId", JValue.str "envid")]), none, none, none⟩

def c7wDeps : Deps :=
  ⟨[("envid", []), ("caid", [JValue.str "envid"])], [("envid", []), ("caid", [])]⟩

/-- Witness for `c7_managed_environment`. -/
theorem c7_managed_environment_witness :
    JValue.str "envid" ∈ lookupD c7wDeps.confirmed "caid" :=
  c7_managed_environment (show c7wCA ∈ [c7wEnv, c7wCA] by decide) rfl (by decide) rfl
    (show c7wCA.properties =
      some (JValue.obj [("managedEnvironmentId", JValue.str "envid")]) from rfl)
    rfl (by decide)
    ⟨c7wEnv, by decide, rfl⟩
    (show get_resource_dependencies azNone "s" [c7wEnv, c7wCA] = Except.ok c7wDeps by decide)

def c4catalog : List Resource :=
  [⟨some "wid", some "webby", some "microsoft.web/sites", none,
    some (JValue.str "not-json"), none, none, none⟩]

/-- C4: evaluating the engine on a web-site resource whose `properties` is
the string `"not-json"` raises an uncaught `AttributeError` (from
`properties.get('serverFarmId')` on a `str`), contradicting the claimed
graceful degradation: the run aborts and no other resource would be
processed. -/
theorem c4_not_json_raises :
    get_resource_dependencies azNone "sub" c4catalog =
      Except.error "AttributeError" := by decide

def c6catalog : List Resource :=
  [⟨some "app1id", some "app1", some "microsoft.web/sites", none, none,
    some (JValue.obj [("appSettings", JValue.obj
      [("DB", JValue.str "Server=tcp:myserver.database.windows.net")])]), none, none⟩,
   ⟨some "myserverid", some "myserver", some "microsoft.sql/servers", none,
    none, none, none, none⟩,
   ⟨some "storid", some "mystorage", some "microsoft.storage/storageaccounts", none,
    none, none, none, none⟩,
   ⟨some "cosmosid", some "mycosmos", some "microsoft.documentdb/databaseaccounts", none,
    none, none, none, none⟩]

/-- C6: with app setting `"Server=tcp:myserver.database.windows.net"` on a
web site and a SQL server named `myserver` in the catalog, inference puts
`myserver`'s id in the site's potential set and does not add the storage or
Cosmos resources whose names do not occur in the value. -/
theorem c6_hostname_routing :
    JValue.str "myserverid" ∈ runPot azNone "sub" c6catalog "app1id" ∧
    JValue.str "storid" ∉ runPot azNone "sub" c6catalog "app1id" ∧
    JValue.str "cosmosid" ∉ runPot azNone "sub" c6catalog "app1id" := by decide

def c8catalog : List Resource :=
  [⟨some "plan1id", some "plan1", some "microsoft.web/serverfarms", none,
    none, none, none, none⟩,
   ⟨some "app1id", some "app1", some "microsoft.web/sites", none,
    some (JValue.obj [("serverFarmId", JValue.str "plan1id")]), none, none, none⟩]

def c8deps : Deps :=
  ⟨[("plan1id", []), ("app1id", [JValue.str "plan1id"])],
   [("plan1id", []), ("app1id", [])]⟩

/-- C8: the ServerFarm/WebSite end-to-end scenario gives
`confirmedDependencies["app1id"] = {"plan1id"}` and
`confirmedDependencies["plan1id"] = {}`. -/
theorem c8_end_to_end :
    get_resource_dependencies azNone "sub" c8catalog = Except.ok c8deps ∧
    lookupD c8deps.confirmed "app1id" = [JValue.str "plan1id"] ∧
    lookupD c8deps.confirmed "plan1id" = [] := by decide

/-- C9: with the external point-to-point lookup modelled as a fixed function
of its argument, two runs of inference on the same catalog return the same
confirmed and potential mappings — the engine is a pure function of the
catalog and the lookup, so the edge sets are identical (hence equal as
sets, independent of iteration order). -/
theorem c9_idempotent (az1 az2 : String → Option JValue) (subId : String)
    (resources : List Resource) (haz : ∀ q, az1 q = az2 q) :
    get_resource_dependencies az1 subId resources =
      get_resource_dependencies az2 subId resources := by
  have h : az1 = az2 := funext haz
  rw [h]

/-- Witness for `c9_idempotent`. -/
theorem c9_idempotent_witness :
    get_resource_dependencies azNone "sub" c8catalog =
      get_resource_dependencies azNone "sub" c8catalog :=
  c9_idempotent azNone azNone "sub" c8catalog (fun _ => rfl)

/-- Condition under which the app-settings/connection-strings scan
(`nameMatchScan`) adds target `x` for candidate `dep`. -/
def nameScanHit (value : String) (dep : Resource) (x : JValue) : Prop :=
  (∃ s, dep.id = some s ∧ x = JValue.str s) ∧
  dep.name.getD "" ≠ "" ∧ (dep.name.getD "").length > 3 ∧
  (hasSub (dep.name.getD "") value = true ∨
   hasSub (noDash (dep.name.getD "")) (noDash value) = true)

/-- Condition under which the networkInfo scan (`netValueScan`) adds target
`x` for candidate `dep`: any non-empty name, no length minimum, no hyphen
stripping. -/
def netScanHit (value : String) (dep : Resource) (x : JValue) : Prop :=
  (∃ s, dep.id = some s ∧ x = JValue.str s) ∧
  dep.name.getD "" ≠ "" ∧ hasSub (dep.name.getD "") value = true

theorem exists_mem_cons_split {α : Type} {a : α} {l : List α} {P : α → Prop} :
    (∃ d, d ∈ a :: l ∧ P d) ↔ P a ∨ ∃ d, d ∈ l ∧ P d := by
  constructor
  · rintro ⟨d, hd, hp⟩
    rcases List.mem_cons.mp hd with h | h
    · subst h
      exact Or.inl hp
    · exact Or.inr ⟨d, h, hp⟩
  · rintro (hp | ⟨d, hd, hp⟩)
    · exact ⟨a, List.mem_cons_self a l, hp⟩
    · exact ⟨d, List.mem_cons_of_mem a hd, hp⟩

theorem nameMatchScan_char {rid value : String} :
    ∀ (resources : List Resource) (m m' : Deps) (x : JValue),
      nameMatchScan resources rid value m = Except.ok m' →
      (x ∈ lookupD m'.potential rid ↔ x ∈ lookupD m.potential rid ∨
        ∃ dep, dep ∈ resources ∧ nameScanHit value dep x)
  | [], m, m', x, h => by
      unfold nameMatchScan at h
      cases foldlM_ok_nil.mp h
      simp
  | dep :: rest, m, m', x, h => by
      unfold nameMatchScan at h
      obtain ⟨m1, h1, h2⟩ := foldlM_ok_cons.mp h
      have hrest := nameMatchScan_char rest m1 m' x
        (show nameMatchScan rest rid value m1 = Except.ok m' from h2)
      rw [hrest, exists_mem_cons_split]
      dsimp only at h1
      split at h1
      next hc1 =>
        simp only [Bool.and_eq_true, decide_eq_true_eq] at hc1
        have hne := strNE.mp hc1.1
        have hlen := hc1.2
        split at h1
        next hdir =>
          obtain ⟨s, hid, hadd⟩ := addPotRes_ok_iff.mp h1
          rw [addPot_pot_iff hadd rid x]
          have hhit : nameScanHit value dep x ↔ x = JValue.str s := by
            constructor
            · rintro ⟨⟨s', hid', hx⟩, _⟩
              rw [hid] at hid'
              cases hid'
              exact hx
            · intro hx
              exact ⟨⟨s, hid, hx⟩, hne, hlen, Or.inl hdir⟩
          rw [hhit]
          tauto
        next hdir =>
          split at h1
          next hhyp =>
            obtain ⟨s, hid, hadd⟩ := addPotRes_ok_iff.mp h1
            rw [addPot_pot_iff hadd rid x]
            have hhit : nameScanHit value dep x ↔ x = JValue.str s := by
              constructor
              · rintro ⟨⟨s', hid', hx⟩, _⟩
                rw [hid] at hid'
                cases hid'
                exact hx
              · intro hx
                exact ⟨⟨s, hid, hx⟩, hne, hlen, Or.inr hhyp⟩
            rw [hhit]
            tauto
          next hhyp =>
            cases pure_ok h1
            have hmiss : ¬ nameScanHit value dep x := by
              rintro ⟨_, _, _, hor | hor⟩
              · exact hdir hor
              · exact hhyp hor
            tauto
      next hc1 =>
        cases pure_ok h1
        have hmiss : ¬ nameScanHit value dep x := by
          rintro ⟨_, hn, hl, _⟩
          exact hc1 (by simp only [Bool.and_eq_true, decide_eq_true_eq]; exact ⟨strNE.mpr hn, hl⟩)
        tauto

theorem netValueScan_char {rid value : String} :
    ∀ (resources : List Resource) (m m' : Deps) (x : JValue),
      netValueScan resources rid value m = Except.ok m' →
      (x ∈ lookupD m'.potential rid ↔ x ∈ lookupD m.potential rid ∨
        ∃ dep, dep ∈ resources ∧ netScanHit value dep x)
  | [], m, m', x, h => by
      unfold netValueScan at h
      cases foldlM_ok_nil.mp h
      simp
  | dep :: rest, m, m', x, h => by
      unfold netValueScan at h
      obtain ⟨m1, h1, h2⟩ := foldlM_ok_cons.mp h
      have hrest := netValueScan_char rest m1 m' x
        (show netValueScan rest rid value m1 = Except.ok m' from h2)
      rw [hrest, exists_mem_cons_split]
      dsimp only at h1
      split at h1
      next hc1 =>
        simp only [Bool.and_eq_true] at hc1
        have hne := strNE.mp hc1.1
        have hsubv := hc1.2
        obtain ⟨s, hid, hadd⟩ := addPotRes_ok_iff.mp h1
        rw [addPot_pot_iff hadd rid x]
        have hhit : netScanHit value dep x ↔ x = JValue.str s := by
          constructor
          · rintro ⟨⟨s', hid', hx⟩, _⟩
            rw [hid] at hid'
            cases hid'
            exact hx
          · intro hx
            exact ⟨⟨s, hid, hx⟩, hne, hsubv⟩
        rw [hhit]
        tauto
      next hc1 =>
        cases pure_ok h1
        have hmiss : ¬ netScanHit value dep x := by
          rintro ⟨_, hn, hs⟩
          exact hc1 (by simp only [Bool.and_eq_true]; exact ⟨strNE.mpr hn, hs⟩)
        tauto

def c5netA : Resource := ⟨some "a-id", some "appA", some "foo/bar", none, none, none, none,
  some (JValue.obj [("host", JValue.str "db.example.com")])⟩

def c5netB : Resource := ⟨some "b-id", some "db", some "foo/bar", none, none, none, none, none⟩

def c5catalog : List Resource := [c5netA, c5netB]

/-- C5 counterexample: the networkInfo scan adds a resource whose name `db`
has length 2, so "only when B's name is longer than 3 characters" fails on
the code (and the scans also never require B ≠ A). -/
theorem c5_counterexample :
    c5netB.name = some "db" ∧ ¬ (("db" : String).length > 3) ∧
    JValue.str "b-id" ∈ runPot azNone "sub" c5catalog "a-id" := by decide

/-- C5 (amended): exact characterization of the two scan families.  A
candidate is added from an app-settings or connection-strings value iff it
has an `id`, its name is non-empty and longer than 3 characters, and the
name (directly or hyphen-stripped on both sides) occurs in the value; it is
added from a networkInfo value iff it has an `id` and its non-empty name
occurs in the value — no length minimum, no hyphen stripping, and in both
families no requirement that the candidate differ from the scanned
resource. -/
theorem c5_scan_characterization {resources : List Resource}
    {rid value nvalue : String} {m m' n n' : Deps} {x : JValue}
    (hA : nameMatchScan resources rid value m = Except.ok m')
    (hN : netValueScan resources rid nvalue n = Except.ok n') :
    (x ∈ lookupD m'.potential rid ↔ x ∈ lookupD m.potential rid ∨
      ∃ dep, dep ∈ resources ∧ nameScanHit value dep x) ∧
    (x ∈ lookupD n'.potential rid ↔ x ∈ lookupD n.potential rid ∨
      ∃ dep, dep ∈ resources ∧ netScanHit nvalue dep x) :=
  ⟨nameMatchScan_char resources m m' x hA, netValueScan_char resources n n' x hN⟩

def c5wB : Resource := ⟨some "bid", some "mysvc", some "t/x", none, none, none, none, none⟩

def c5wB2 : Resource := ⟨some "b2id", some "db", some "t/x", none, none, none, none, none⟩

def c5wM0 : Deps := ⟨[("k", [])], [("k", [])]⟩

def c5wM1 : Deps := ⟨[("k", [])], [("k", [JValue.str "bid"])]⟩

def c5wN1 : Deps := ⟨[("k", [])], [("k", [JValue.str "b2id"])]⟩

/-- Witness for `c5_scan_characterization`. -/
theorem c5_scan_characterization_witness :
    (JValue.str "bid" ∈ lookupD c5wM1.potential "k" ↔
      JValue.str "bid" ∈ lookupD c5wM0.potential "k" ∨
      ∃ dep, dep ∈ [c5wB, c5wB2] ∧ nameScanHit "Server=mysvc.example" dep (JValue.str "bid")) ∧
    (JValue.str "bid" ∈ lookupD c5wN1.potential "k" ↔
      JValue.str "bid" ∈ lookupD c5wM0.potential "k" ∨
      ∃ dep, dep ∈ [c5wB, c5wB2] ∧ netScanHit "db.example.com" dep (JValue.str "bid")) :=
  c5_scan_characterization
    (show nameMatchScan [c5wB, c5wB2] "k" "Server=mysvc.example" c5wM0 = Except.ok c5wM1 by decide)
    (show netValueScan [c5wB, c5wB2] "k" "db.example.com" c5wM0 = Except.ok c5wN1 by decide)

theorem removeNoneL_id {l : List JValue} (h : ∀ x ∈ l, ∃ s, x = JValue.str s) :
    removeNoneL l = l := by
  induction l with
  | nil => rfl
  | cons x xs ih =>
    obtain ⟨s, hs⟩ := h x (List.mem_cons_self x xs)
    subst hs
    unfold removeNoneL
    rw [if_neg (by simp)]
    rw [ih (fun y hy => h y (List.mem_cons_of_mem _ hy))]
    rfl

theorem mem_removeNoneO {kvs : List (String × JValue)} {k : String} {v : JValue} :
    (k, v) ∈ removeNoneO kvs ↔
      ∃ w, (k, w) ∈ kvs ∧ v = remove_none w ∧ v.truthy = true := by
  induction kvs with
  | nil => simp [removeNoneO]
  | cons p t ih =>
    obtain ⟨pk, pv⟩ := p
    unfold removeNoneO
    dsimp only
    by_cases hT : (remove_none pv).truthy
    · rw [if_pos hT]
      rw [List.mem_cons, ih]
      constructor
      · rintro (h | ⟨w, hw, rfl, ht⟩)
        · rw [Prod.mk.injEq] at h
          obtain ⟨rfl, rfl⟩ := h
          exact ⟨pv, List.mem_cons_self _ _, rfl, hT⟩
        · exact ⟨w, List.mem_cons_of_mem _ hw, rfl, ht⟩
      · rintro ⟨w, hw, rfl, ht⟩
        rcases List.mem_cons.mp hw with h | h
        · rw [Prod.mk.injEq] at h
          obtain ⟨rfl, rfl⟩ := h
          exact Or.inl rfl
        · exact Or.inr ⟨w, h, rfl, ht⟩
    · rw [if_neg hT]
      rw [ih]
      constructor
      · rintro ⟨w, hw, rfl, ht⟩
        exact ⟨w, List.mem_cons_of_mem _ hw, rfl, ht⟩
      · rintro ⟨w, hw, rfl, ht⟩
        rcases List.mem_cons.mp hw with h | h
        · rw [Prod.mk.injEq] at h
          obtain ⟨rfl, rfl⟩ := h
          exact absurd ht hT
        · exact ⟨w, h, rfl, ht⟩

theorem nodup_key_unique : ∀ {m : DepMap}, (m.map Prod.fst).Nodup →
    ∀ {k : String} {a b : List JValue}, (k, a) ∈ m → (k, b) ∈ m → a = b
  | [], _, _, _, _, ha, _ => absurd ha (List.not_mem_nil _)
  | p :: t, hnd, k, a, b, ha, hb => by
      rw [List.map_cons, List.nodup_cons] at hnd
      rcases List.mem_cons.mp ha with h1 | h1 <;> rcases List.mem_cons.mp hb with h2 | h2
      · rw [← h1, Prod.mk.injEq] at h2
        exact h2.2.symm
      · exfalso
        apply hnd.1
        rw [← h1]
        exact List.mem_map.mpr ⟨(k, b), h2, rfl⟩
      · exfalso
        apply hnd.1
        rw [← h2]
        exact List.mem_map.mpr ⟨(k, a), h1, rfl⟩
      · exact nodup_key_unique hnd.2 h1 h2

/-- C10: `remove_none` drops every resource id whose serialized dependency
list is empty from the saved `confirmed_dependencies`/`potential_dependencies`
objects (so the persisted mappings are not total over resource ids), while
ids with a non-empty list of string targets are kept intact; this holds
both for the bare serialized map and inside the whole snapshot document. -/
theorem c10_empty_sets_dropped {m : DepMap} {r r2 : String} {l2 : List JValue}
    (hnd : (m.map Prod.fst).Nodup)
    (hr : (r, ([] : List JValue)) ∈ m)
    (hr2 : (r2, l2) ∈ m) (hl2 : l2 ≠ [])
    (hstr : ∀ x ∈ l2, ∃ s, x = JValue.str s) :
    (∀ v, (r, v) ∉ objFields (remove_none (depsToJson m))) ∧
    (r2, JValue.arr l2) ∈ objFields (remove_none (depsToJson m)) ∧
    (∀ (sub : String) (resJ rgJ : JValue) (pot : DepMap) (metaJ : JValue)
      (v w : JValue),
      ("confirmed_dependencies", v) ∈
        objFields (remove_none (snapshotJson sub resJ rgJ m pot metaJ)) →
      (r, w) ∉ objFields v) := by
  have hclean : remove_none (JValue.arr l2) = JValue.arr l2 := by
    show JValue.arr (removeNoneL l2) = JValue.arr l2
    rw [removeNoneL_id hstr]
  have hdrop : ∀ v, (r, v) ∉ objFields (remove_none (depsToJson m)) := by
    intro v hv
    have hv2 : (r, v) ∈ removeNoneO (m.map (fun p => (p.1, JValue.arr p.2))) := hv
    obtain ⟨w, hw, rfl, ht⟩ := mem_removeNoneO.mp hv2
    obtain ⟨p, hp, hfp⟩ := List.mem_map.mp hw
    rw [Prod.mk.injEq] at hfp
    obtain ⟨hk, hw2⟩ := hfp
    have : p.2 = [] := by
      refine nodup_key_unique hnd ?_ hr
      rw [← hk]
      exact (Prod.mk.eta (p := p)) ▸ hp
    rw [← hw2, this] at ht
    simp [remove_none, removeNoneL, JValue.truthy] at ht
  refine ⟨hdrop, ?_, ?_⟩
  · show (r2, JValue.arr l2) ∈ removeNoneO (m.map (fun p => (p.1, JValue.arr p.2)))
    refine mem_removeNoneO.mpr ⟨JValue.arr l2, ?_, hclean.symm, ?_⟩
    · exact List.mem_map_of_mem _ hr2
    · simp only [JValue.truthy]
      simpa using hl2
  · intro sub resJ rgJ pot metaJ v w hv
    have hv2 : ("confirmed_dependencies", v) ∈ removeNoneO
      [("subscription_id", JValue.str sub), ("resources", resJ),
       ("resource_groups", rgJ), ("confirmed_dependencies", depsToJson m),
       ("potential_dependencies", depsToJson pot), ("metadata", metaJ)] := hv
    obtain ⟨u, hu, rfl, _⟩ := mem_removeNoneO.mp hv2
    simp only [List.mem_cons, List.not_mem_nil, or_false, Prod.mk.injEq] at hu
    rcases hu with ⟨h, _⟩ | ⟨h, _⟩ | ⟨h, _⟩ | ⟨_, rfl⟩ | ⟨h, _⟩ | ⟨h, _⟩
    · exact absurd h.symm (by decide)
    · exact absurd h.symm (by decide)
    · exact absurd h.symm (by decide)
    · exact hdrop w
    · exact absurd h.symm (by decide)
    · exact absurd h.symm (by decide)

def c10wMap : DepMap := [("a", []), ("b", [JValue.str "x"])]

/-- Witness for `c10_empty_sets_dropped`. -/
theorem c10_empty_sets_dropped_witness :
    (∀ v, ("a", v) ∉ objFields (remove_none (depsToJson c10wMap))) ∧
    ("b", JValue.arr [JValue.str "x"]) ∈ objFields (remove_none (depsToJson c10wMap)) ∧
    (∀ (sub : String) (resJ rgJ : JValue) (pot : DepMap) (metaJ : JValue)
      (v w : JValue),
      ("confirmed_dependencies", v) ∈
        objFields (remove_none (snapshotJson sub resJ rgJ c10wMap pot metaJ)) →
      ("a", w) ∉ objFields v) :=
  c10_empty_sets_dropped (by decide) (by decide) (by decide) (by decide)
    (fun x hx => by rw [List.mem_singleton] at hx; exact ⟨"x", hx⟩)
